import Mathlib

/-!
Shallow embedding of the Clearcare normalization engine
(`json_parser.py`, `tall_format_csv_extractor.py`,
`wide_format_csv_extractor.py`) and proofs about it.

Python dictionaries with string keys are modelled as association lists,
`collections.defaultdict(int)` counters as insertion-ordered association
lists from keys to counts, and `dict.get(k, d)` as `Option.getD` over an
association-list lookup.  Machine I/O (file paths, pandas chunking, the
registry lookup) is out of scope: each walker is modelled as a pure
function of the hospital metadata, the extraction config and the already
parsed source rows / document, threading the run's accumulator state
explicitly.
-/

namespace Clearcare

/-! ## Counters (Python `defaultdict(int)` with insertion order) -/

/-- A `defaultdict(int)`: insertion-ordered association list of counts. -/
abbrev Counter := List (String × Nat)

/-- `c[k]` as a read: missing keys count as 0. -/
def countOf (c : Counter) (k : String) : Nat := (c.lookup k).getD 0

/-- `c[k] += 1`: bump an existing entry in place, or append a new entry
with count 1 (defaultdict insertion order). -/
def bumpC : Counter → String → Counter
  | [], k => [(k, 1)]
  | (x, n) :: rest, k =>
      if x = k then (x, n + 1) :: rest else (x, n) :: bumpC rest k

/-- Reading `c[k]` on a defaultdict inserts the default 0 for a missing
key (this happens in the `missing_code_types` comprehension). -/
def touch : Counter → String → Counter
  | [], k => [(k, 0)]
  | (x, n) :: rest, k =>
      if x = k then (x, n) :: rest else (x, n) :: touch rest k

/-- Sequence of defaultdict reads, one per key. -/
def touchAll (c : Counter) (ks : List String) : Counter := ks.foldl touch c

/-- `for x in xs: c[x] += 1`. -/
def tallyList (c : Counter) (xs : List String) : Counter := xs.foldl bumpC c

/-- `CODE_TYPE_MAPPINGS_USED`: raw token → insertion-ordered set of
normalization results observed for it (`defaultdict(set)`; the set is
modelled in insertion order). -/
abbrev Mappings := List (String × List (Option String))

/-- `CODE_TYPE_MAPPINGS_USED[raw].add(n)`. -/
def addMapping : Mappings → String → Option String → Mappings
  | [], raw, n => [(raw, [n])]
  | (r, s) :: rest, raw, n =>
      if r = raw then (r, if n ∈ s then s else s ++ [n]) :: rest
      else (r, s) :: addMapping rest raw n

/-- The five module-level run accumulators shared by all three walkers. -/
structure AuditState where
  unknownCodeTypes : Counter
  fieldPresence : Counter
  codeTypePresence : Counter
  modifierCounts : Counter
  mappingsUsed : Mappings
  deriving DecidableEq

/-- All accumulators empty (state of a fresh process). -/
def emptyState : AuditState := ⟨[], [], [], [], []⟩

/-! ## Canonical record and headers -/

/-- One canonical output row.  The CSV walkers populate all 22 fields;
the JSON walker's header list has no `modifiers` column, its records
keep that field `""`. -/
structure CanonicalRecord where
  hospitalName : String
  zipCode : String
  code : String
  codeType : String
  description : String
  drugUnit : String
  drugType : String
  insurancePayerName : String
  insurancePayerId : String
  insurancePlanName : String
  negotiatedPrice : String
  negotiatedPercentage : String
  negotiatedAlgorithm : String
  negotiatedMethodology : String
  grossCharge : String
  discountedCashPrice : String
  minPrice : String
  maxPrice : String
  estimatedAmount : String
  setting : String
  additionalNotes : String
  modifiers : String
  deriving DecidableEq

/-- A record with every field empty (used only as a `headD` default in
closed witness statements). -/
def defRec : CanonicalRecord :=
  ⟨"", "", "", "", "", "", "", "", "", "", "",
   "", "", "", "", "", "", "", "", "", "", ""⟩

/-- `row.get(key)` for the canonical output dictionaries: canonical field
name → field value. -/
def CanonicalRecord.getField (r : CanonicalRecord) : String → String
  | "hospital name" => r.hospitalName
  | "zip code" => r.zipCode
  | "code" => r.code
  | "code type" => r.codeType
  | "description" => r.description
  | "drug unit" => r.drugUnit
  | "drug type" => r.drugType
  | "insurance payer name" => r.insurancePayerName
  | "insurance payer id" => r.insurancePayerId
  | "insurance plan name" => r.insurancePlanName
  | "negotiated price" => r.negotiatedPrice
  | "negotiated percentage" => r.negotiatedPercentage
  | "negotiated algorithm" => r.negotiatedAlgorithm
  | "negotiated methodology" => r.negotiatedMethodology
  | "gross charge" => r.grossCharge
  | "discounted cash price" => r.discountedCashPrice
  | "min price" => r.minPrice
  | "max price" => r.maxPrice
  | "estimated amount" => r.estimatedAmount
  | "setting" => r.setting
  | "additional notes" => r.additionalNotes
  | "modifiers" => r.modifiers
  | _ => ""

/-- The wide resolver's group key: (code, normalized type, payer, plan). -/
def recKey (r : CanonicalRecord) : String × String × String × String :=
  (r.code, r.codeType, r.insurancePayerName, r.insurancePlanName)

/-- `HEADERS` of `json_parser.py` (21 columns, no `modifiers`). -/
def HEADERS_JSON : List String :=
  ["hospital name", "zip code", "code", "code type", "description",
   "drug unit", "drug type", "insurance payer name", "insurance payer id",
   "insurance plan name", "negotiated price", "negotiated percentage",
   "negotiated algorithm", "negotiated methodology", "gross charge",
   "discounted cash price", "min price", "max price", "estimated amount",
   "setting", "additional notes"]

/-- `HEADERS` of both CSV extractors (22 columns, with `modifiers`). -/
def HEADERS_CSV : List String := HEADERS_JSON ++ ["modifiers"]

/-- Increment `FIELD_PRESENCE_LOG[key]` for every `key` in `hdrs` whose
value in the just-emitted record is non-empty
(`for key in HDRS: if row.get(key): FIELD_PRESENCE_LOG[key] += 1`). -/
def logPresence (hdrs : List String) (r : CanonicalRecord) (fp : Counter) : Counter :=
  hdrs.foldl (fun acc k => if r.getField k ≠ "" then bumpC acc k else acc) fp

/-- `full_field_summary = {field: FIELD_PRESENCE_LOG.get(field, 0) for field in HEADERS}`. -/
def fullFieldSummary (hdrs : List String) (fp : Counter) : List (String × Nat) :=
  hdrs.map (fun f => (f, countOf fp f))

/-! ## Shared inputs -/

/-- `HospitalMetadata` from the registry (external input, §6). -/
structure Metadata where
  hospital_name : String
  zip_code : String
  deriving DecidableEq

/-- `ExtractConfig`: allowed canonical code types (a set of strings,
modelled as a list) and the raw → canonical normalization map. -/
structure Config where
  allowed : List String
  codeTypeMap : List (String × String)
  deriving DecidableEq

/-- A CSV body row: column name → cell value (after `.fillna("")` /
`dtype=str` everything is a string; `row.get(col, "")` is a defaulted
lookup). -/
abbrev CsvRow := List (String × String)

/-- `row.get(col, "")`. -/
def getCol (row : CsvRow) (col : String) : String := (row.lookup col).getD ""

/-! ### String primitives

Python's `.strip()`, `.upper()`, `.split(...)` and `re.split(r"[,|]", ...)`,
modelled directly on the character list of the string. -/

/-- Whitespace for `.strip()`. -/
def isSpaceChar (c : Char) : Bool :=
  c == ' ' || c == '\t' || c == '\n' || c == '\r'

/-- `s.strip()`. -/
def pyStrip (s : String) : String :=
  String.mk (((s.data.dropWhile isSpaceChar).reverse.dropWhile isSpaceChar).reverse)

/-- ASCII uppercasing of one character. -/
def upChar (c : Char) : Char :=
  if c.toNat ≥ 97 ∧ c.toNat ≤ 122 then Char.ofNat (c.toNat - 32) else c

/-- `s.upper()` (the code-type tokens are ASCII). -/
def pyUpper (s : String) : String := String.mk (s.data.map upChar)

/-- Split a character list at every separator character; `n` separators
yield `n + 1` (possibly empty) pieces, and the empty input yields one
empty piece — Python `split` semantics. -/
def splitOnPred (p : Char → Bool) : List Char → List (List Char)
  | [] => [[]]
  | c :: cs =>
      let r := splitOnPred p cs
      if p c then [] :: r
      else
        match r with
        | [] => [[c]]
        | g :: gs => (c :: g) :: gs

/-- `s.split("|")`. -/
def pySplitPipe (s : String) : List String :=
  (splitOnPred (fun c => c == '|') s.data).map String.mk

/-- `re.split(r"[,|]", s)`. -/
def reSplitCommaPipe (s : String) : List String :=
  (splitOnPred (fun c => c == ',' || c == '|') s.data).map String.mk

/-- `f"code|{i}"`. -/
def codeColName (i : Nat) : String := "code|" ++ toString i

/-- `f"code|{i}|type"`. -/
def typeColName (i : Nat) : String := "code|" ++ toString i ++ "|type"

/-- `re.split(r"[,|]", raw)` then strip each piece and drop the empty
ones: the modifier extractor shared by both CSV walkers. -/
def extractModifiers (raw : String) : List String :=
  ((reSplitCommaPipe raw).map pyStrip).filter
    (fun m => m ≠ "")

/-! ## Counter lemmas -/

theorem lookup_cons {β : Type} (x y : String) (n : β) (rest : List (String × β)) :
    List.lookup x ((y, n) :: rest) = if x = y then some n else List.lookup x rest := by
  by_cases h : x = y
  · subst h; simp [List.lookup]
  · simp [List.lookup, beq_eq_false_iff_ne.mpr h, h]

theorem countOf_bumpC (c : Counter) (k x : String) :
    countOf (bumpC c k) x = if x = k then countOf c x + 1 else countOf c x := by
  induction c with
  | nil =>
      by_cases h : x = k <;> simp [bumpC, countOf, lookup_cons, h]
  | cons p rest ih =>
      obtain ⟨y, n⟩ := p
      by_cases hyk : y = k
      · subst hyk
        by_cases hxk : x = y <;> simp [bumpC, countOf, lookup_cons, hxk]
      · by_cases hxy : x = y
        · subst hxy
          simp [bumpC, countOf, lookup_cons, hyk]
        · simpa [bumpC, countOf, lookup_cons, hyk, hxy] using ih

theorem countOf_touch (c : Counter) (k x : String) :
    countOf (touch c k) x = countOf c x := by
  induction c with
  | nil =>
      by_cases h : x = k <;> simp [touch, countOf, lookup_cons, h]
  | cons p rest ih =>
      obtain ⟨y, n⟩ := p
      by_cases hyk : y = k
      · subst hyk
        simp [touch, countOf, lookup_cons]
      · by_cases hxy : x = y
        · simp [touch, countOf, lookup_cons, hyk, hxy]
        · simpa [touch, countOf, lookup_cons, hyk, hxy] using ih

theorem countOf_touchAll (c : Counter) (ks : List String) (x : String) :
    countOf (touchAll c ks) x = countOf c x := by
  induction ks generalizing c with
  | nil => rfl
  | cons k ks ih => simpa [touchAll, List.foldl, countOf_touch] using ih (touch c k)

theorem countOf_tallyList (c : Counter) (xs : List String) (m : String) :
    countOf (tallyList c xs) m = countOf c m + xs.count m := by
  induction xs generalizing c with
  | nil => simp [tallyList]
  | cons x xs ih =>
      by_cases h : m = x
      · subst h
        simp only [tallyList, List.foldl, List.count_cons] at *
        rw [ih (bumpC c m), countOf_bumpC]
        simp [Nat.add_comm, Nat.add_assoc, Nat.add_left_comm]
      · simp only [tallyList, List.foldl] at *
        rw [ih (bumpC c x), countOf_bumpC, if_neg h, List.count_cons]
        have h2 : ¬x = m := fun hh => h hh.symm
        simp [h2]

/-! ## Generic walker machinery

Every walker is a sequence of loops; each loop body consumes one unit of
work, may emit records, and updates the run accumulators.  `runList`
threads the state through such a loop. -/

/-- Run a loop body over a list, concatenating emitted records and
threading the accumulator state. -/
def runList {α : Type} (f : α → AuditState → List CanonicalRecord × AuditState) :
    List α → AuditState → List CanonicalRecord × AuditState
  | [], st => ([], st)
  | a :: as, st =>
      let p := f a st
      let q := runList f as p.2
      (p.1 ++ q.1, q.2)

/-- If each loop step's emitted records are a pure function of the work
unit, the loop emits their concatenation. -/
theorem runList_fst {α : Type} (f : α → AuditState → List CanonicalRecord × AuditState)
    (recs : α → List CanonicalRecord) (hf : ∀ a st, (f a st).1 = recs a) :
    ∀ (as : List α) (st : AuditState), (runList f as st).1 = as.flatMap recs := by
  intro as
  induction as with
  | nil => intro st; rfl
  | cons a as ih =>
      intro st
      simp [runList, hf a st, ih ((f a st).2), List.flatMap_cons]

/-- If each loop step adds a state-independent delta `d a` to the
numeric projection `g` of the state, the whole loop adds their sum. -/
theorem runList_proj {α : Type} (f : α → AuditState → List CanonicalRecord × AuditState)
    (g : AuditState → Nat) (d : α → Nat)
    (hf : ∀ a st, g ((f a st).2) = g st + d a) :
    ∀ (as : List α) (st : AuditState),
      g ((runList f as st).2) = g st + (as.map d).sum := by
  intro as
  induction as with
  | nil => intro st; simp [runList]
  | cons a as ih =>
      intro st
      simp only [runList, List.map_cons, List.sum_cons]
      rw [ih ((f a st).2), hf a st, Nat.add_assoc]

/-- If no record emitted by any step violates `P`, no record of the
whole loop does. -/
theorem runList_pred {α : Type} (f : α → AuditState → List CanonicalRecord × AuditState)
    (P : CanonicalRecord → Prop)
    (hf : ∀ a st r, r ∈ (f a st).1 → P r) :
    ∀ (as : List α) (st : AuditState) (r : CanonicalRecord),
      r ∈ (runList f as st).1 → P r := by
  intro as
  induction as with
  | nil => intro st r h; simp [runList] at h
  | cons a as ih =>
      intro st r h
      simp only [runList, List.mem_append] at h
      rcases h with h | h
      · exact hf a st r h
      · exact ih ((f a st).2) r h

/-- The field-presence increment contributed by a batch of records
against a header list: each header occurrence of `f` counts each record
whose `f` field is non-empty. -/
def fpDelta (hdrs : List String) (rs : List CanonicalRecord) (f : String) : Nat :=
  hdrs.count f * rs.countP (fun r => r.getField f ≠ "")

theorem fpDelta_nil (hdrs : List String) (f : String) : fpDelta hdrs [] f = 0 := by
  simp [fpDelta]

theorem fpDelta_append (hdrs : List String) (rs ss : List CanonicalRecord) (f : String) :
    fpDelta hdrs (rs ++ ss) f = fpDelta hdrs rs f + fpDelta hdrs ss f := by
  simp [fpDelta, List.countP_append, Nat.mul_add]

theorem fpDelta_flatMap {α : Type} (hdrs : List String)
    (recs : α → List CanonicalRecord) (f : String) :
    ∀ as : List α,
      ((as.map fun a => fpDelta hdrs (recs a) f).sum) = fpDelta hdrs (as.flatMap recs) f := by
  intro as
  induction as with
  | nil => simp [fpDelta]
  | cons a as ih => simp [List.flatMap_cons, fpDelta_append, ih]

theorem countOf_logPresence_aux (t : List String) (r : CanonicalRecord)
    (fp : Counter) (k : String) :
    countOf (logPresence t r fp) k =
      countOf fp k + t.count k * (if r.getField k ≠ "" then 1 else 0) := by
  induction t generalizing fp with
  | nil => simp [logPresence]
  | cons h t ih =>
      have hstep : logPresence (h :: t) r fp =
          logPresence t r (if r.getField h ≠ "" then bumpC fp h else fp) := rfl
      rw [hstep, ih]
      have hcount : (h :: t).count k = t.count k + (if k = h then 1 else 0) := by
        by_cases hk : k = h <;> simp [List.count_cons, hk]
      rw [hcount]
      by_cases hcond : r.getField h ≠ ""
      · rw [if_pos hcond, countOf_bumpC]
        by_cases hk : k = h
        · subst hk
          simp only [if_pos rfl, if_pos hcond]
          simp [Nat.add_comm, Nat.add_assoc, Nat.add_left_comm]
        · simp [hk]
      · rw [if_neg hcond]
        by_cases hk : k = h
        · subst hk
          have : ¬ r.getField k ≠ "" := hcond
          simp [this]
        · simp [hk]

theorem countOf_logPresence (hdrs : List String) (r : CanonicalRecord)
    (fp : Counter) (k : String) :
    countOf (logPresence hdrs r fp) k = countOf fp k + fpDelta hdrs [r] k := by
  rw [countOf_logPresence_aux]
  by_cases hc : r.getField k = ""
  · simp [fpDelta, List.countP_cons, hc]
  · simp [fpDelta, List.countP_cons, hc]

theorem lookup_fullFieldSummary (hdrs : List String) (fp : Counter) (f : String) :
    (fullFieldSummary hdrs fp).lookup f =
      if f ∈ hdrs then some (countOf fp f) else none := by
  induction hdrs with
  | nil => simp [fullFieldSummary]
  | cons h t ih =>
      by_cases hf : f = h
      · subst hf
        simp [fullFieldSummary, lookup_cons]
      · simp only [fullFieldSummary, List.map_cons] at *
        rw [lookup_cons, if_neg hf, ih]
        by_cases hmem : f ∈ t <;> simp [hmem, hf, List.mem_cons]

/-! ## Tall-format CSV extractor (`tall_format_csv_extractor.py`) -/

/-- Characters preceding the first `]`, or `none` if there is no `]`
(the lazy `(.*?)\]` tail of the payer regex). -/
def takeUntilRBracket : List Char → Option (List Char)
  | [] => none
  | c :: cs => if c = ']' then some [] else (takeUntilRBracket cs).map (c :: ·)

/-- Split at the last `[` that is still followed by some `]`: returns
(characters before that `[`, characters after it).  This is where the
greedy `(.*)` of `re.search(r"(.*)\[(.*?)\]", payer)` commits. -/
def findLastLBracket : List Char → Option (List Char × List Char)
  | [] => none
  | c :: cs =>
      match findLastLBracket cs with
      | some (p, rest) => some (c :: p, rest)
      | none =>
          if c = '[' ∧ (takeUntilRBracket cs).isSome then some ([], cs) else none

/-- Payer identity from the combined `payer_name` column: pattern
`name [id]`; without a bracket match the whole field is the name and the
id is empty (matching groups are `.strip()`ped, the no-match name is
not). -/
def parsePayer (payer : String) : String × String :=
  match findLastLBracket payer.data with
  | some (p, rest) =>
      (pyStrip (String.mk p), pyStrip (String.mk ((takeUntilRBracket rest).getD [])))
  | none => (payer, "")

/-- The output row a surviving tall code slot emits
(`output_row` at `tall_format_csv_extractor.py:115`). -/
def tallRecord (md : Metadata) (row : CsvRow) (payerName payerId notes modifiersRaw
    code nct : String) : CanonicalRecord where
  hospitalName := md.hospital_name
  zipCode := md.zip_code
  code := code
  codeType := nct
  description := getCol row "description"
  drugUnit := getCol row "drug_unit_of_measurement"
  drugType := getCol row "drug_type_of_measurement"
  insurancePayerName := payerName
  insurancePayerId := payerId
  insurancePlanName := getCol row "plan_name"
  negotiatedPrice := getCol row "standard_charge|negotiated_dollar"
  negotiatedPercentage := getCol row "standard_charge|negotiated_percentage"
  negotiatedAlgorithm := getCol row "standard_charge|negotiated_algorithm"
  negotiatedMethodology := getCol row "standard_charge|methodology"
  grossCharge := getCol row "standard_charge|gross"
  discountedCashPrice := getCol row "standard_charge|discounted_cash"
  minPrice := getCol row "standard_charge|min"
  maxPrice := getCol row "standard_charge|max"
  estimatedAmount := getCol row "estimated_amount"
  setting := getCol row "setting"
  additionalNotes := notes
  modifiers := modifiersRaw

/-- One ordinal code slot of a tall row (`for i in range(1, 5)` body):
skip on blank code/type, record the normalization, and either count the
raw type as unrecognized or count the canonical type and emit a record,
logging field presence. -/
def tallSlot (cfg : Config) (md : Metadata) (row : CsvRow)
    (payerName payerId notes modifiersRaw : String) (i : Nat)
    (st : AuditState) : List CanonicalRecord × AuditState :=
  let code := pyStrip (getCol row (codeColName i))
  let rawCT := pyUpper (pyStrip (getCol row (typeColName i)))
  if code = "" ∨ rawCT = "" then ([], st)
  else
    let nct := cfg.codeTypeMap.lookup rawCT
    let st1 := { st with mappingsUsed := addMapping st.mappingsUsed rawCT nct }
    match nct with
    | some t =>
        if t ∈ cfg.allowed then
          let r := tallRecord md row payerName payerId notes modifiersRaw code t
          ([r], { st1 with
                    codeTypePresence := bumpC st1.codeTypePresence t,
                    fieldPresence := logPresence HEADERS_CSV r st1.fieldPresence })
        else ([], { st1 with unknownCodeTypes := bumpC st1.unknownCodeTypes rawCT })
    | none => ([], { st1 with unknownCodeTypes := bumpC st1.unknownCodeTypes rawCT })

/-- One body row of the tall CSV: parse the payer field, tally the
modifier tokens, then run the four code slots. -/
def tallRowStep (cfg : Config) (md : Metadata) (row : CsvRow)
    (st : AuditState) : List CanonicalRecord × AuditState :=
  let pp := parsePayer (getCol row "payer_name")
  let notes := getCol row "additional_generic_notes"
  let modifiersRaw := pyStrip (getCol row "modifiers")
  let st1 := { st with
                 modifierCounts := tallyList st.modifierCounts (extractModifiers modifiersRaw) }
  runList (tallSlot cfg md row pp.1 pp.2 notes modifiersRaw) [1, 2, 3, 4] st1

/-- The whole tall body (the `pd.read_csv(..., chunksize=...)` chunking
has no semantic effect per row, so the body is one list of rows). -/
def tallRun (cfg : Config) (md : Metadata) (rows : List CsvRow)
    (st : AuditState) : List CanonicalRecord × AuditState :=
  runList (tallRowStep cfg md) rows st

/-- Pure description of a slot's emitted records. -/
def tallSlotRecs (cfg : Config) (md : Metadata) (row : CsvRow)
    (payerName payerId notes modifiersRaw : String) (i : Nat) : List CanonicalRecord :=
  let code := pyStrip (getCol row (codeColName i))
  let rawCT := pyUpper (pyStrip (getCol row (typeColName i)))
  if code = "" ∨ rawCT = "" then []
  else
    match cfg.codeTypeMap.lookup rawCT with
    | some t =>
        if t ∈ cfg.allowed then
          [tallRecord md row payerName payerId notes modifiersRaw code t]
        else []
    | none => []

/-- Pure description of a row's emitted records. -/
def tallRowRecs (cfg : Config) (md : Metadata) (row : CsvRow) : List CanonicalRecord :=
  let pp := parsePayer (getCol row "payer_name")
  let notes := getCol row "additional_generic_notes"
  let modifiersRaw := pyStrip (getCol row "modifiers")
  [1, 2, 3, 4].flatMap (tallSlotRecs cfg md row pp.1 pp.2 notes modifiersRaw)

/-- Pure description of the whole tall run's emitted records. -/
def tallRecs (cfg : Config) (md : Metadata) (rows : List CsvRow) : List CanonicalRecord :=
  rows.flatMap (tallRowRecs cfg md)

/-! ### Tall output serialization (line 144 of the source)

`out_csv.write(",".join([f'"{output_row.get(col, "").replace("\"", "''")}"'
for col in HEADERS]) + "\n")`: each cell is wrapped in double quotes after
replacing every double quote inside the value by two apostrophes. -/

/-- `v.replace('"', "''")`. -/
def pyReplaceDQ (s : String) : String :=
  String.mk (s.data.flatMap fun c =>
    if c = Char.ofNat 34 then [Char.ofNat 39, Char.ofNat 39] else [c])

/-- One serialized cell: the replaced value wrapped in double quotes. -/
def tallCell (v : String) : String := "\"" ++ pyReplaceDQ v ++ "\""

/-- One serialized output line for a record. -/
def tallLine (r : CanonicalRecord) : String :=
  String.intercalate "," (HEADERS_CSV.map fun col => tallCell (r.getField col)) ++ "\n"

/-- The whole canonical CSV written by the tall walker: the plain-joined
header line (line 74), then one `tallLine` per record. -/
def tallOutput (recs : List CanonicalRecord) : String :=
  (String.intercalate "," HEADERS_CSV ++ "\n") ++ String.join (recs.map tallLine)

/-! ### Tall dev log -/

/-- The audit JSON written by the tall walker (`dev_log_path`). -/
structure TallDevLog where
  raw_hospital_location : String
  raw_hospital_address : String
  mrf_version : String
  mrf_last_updated : String
  field_presence_summary : List (String × Nat)
  unrecognized_code_types : Counter
  missing_code_types : List String
  code_type_presence : Counter
  code_type_normalizations_used : Mappings
  modifier_counts : Counter
  deriving DecidableEq

/-- Tall source file: two metadata key/value rows, then the body. -/
structure TallInput where
  metaPairs : List (String × String)
  body : List CsvRow

/-- Build the dev log from the final accumulator state.  The
`missing_code_types` comprehension reads `CODE_TYPE_PRESENCE[ct]` on the
defaultdict, inserting a zero entry for every allowed type, before the
dict is serialized. -/
def mkTallDevLog (cfg : Config) (metaPairs : List (String × String))
    (st : AuditState) : TallDevLog where
  raw_hospital_location := (metaPairs.lookup "hospital_location").getD ""
  raw_hospital_address := (metaPairs.lookup "hospital_address").getD ""
  mrf_version := (metaPairs.lookup "version").getD ""
  mrf_last_updated := (metaPairs.lookup "last_updated_on").getD ""
  field_presence_summary := fullFieldSummary HEADERS_CSV st.fieldPresence
  unrecognized_code_types := st.unknownCodeTypes
  missing_code_types := cfg.allowed.filter fun ct => countOf st.codeTypePresence ct = 0
  code_type_presence := touchAll st.codeTypePresence cfg.allowed
  code_type_normalizations_used := st.mappingsUsed
  modifier_counts := st.modifierCounts

/-- `extract_tall_format_csv`: records, final accumulators, dev log. -/
def tallWalk (cfg : Config) (md : Metadata) (inp : TallInput)
    (st : AuditState) : List CanonicalRecord × AuditState × TallDevLog :=
  let p := tallRun cfg md inp.body st
  (p.1, p.2, mkTallDevLog cfg inp.metaPairs p.2)

/-! ### Tall walker lemmas -/

/-- Number of records in a batch carrying a given code type. -/
def typeCount (rs : List CanonicalRecord) (t : String) : Nat :=
  rs.countP (fun r => r.codeType = t)

theorem typeCount_nil (t : String) : typeCount [] t = 0 := rfl

theorem typeCount_append (rs ss : List CanonicalRecord) (t : String) :
    typeCount (rs ++ ss) t = typeCount rs t + typeCount ss t := by
  simp [typeCount, List.countP_append]

theorem typeCount_flatMap {α : Type} (recs : α → List CanonicalRecord) (t : String) :
    ∀ as : List α,
      ((as.map fun a => typeCount (recs a) t).sum) = typeCount (as.flatMap recs) t := by
  intro as
  induction as with
  | nil => simp [typeCount]
  | cons a as ih => simp [List.flatMap_cons, typeCount_append, ih]

theorem tallSlot_fst (cfg : Config) (md : Metadata) (row : CsvRow)
    (pn pid notes mraw : String) (i : Nat) (st : AuditState) :
    (tallSlot cfg md row pn pid notes mraw i st).1 =
      tallSlotRecs cfg md row pn pid notes mraw i := by
  simp only [tallSlot, tallSlotRecs]
  by_cases h1 : pyStrip (getCol row (codeColName i)) = "" ∨
      pyUpper (pyStrip (getCol row (typeColName i))) = ""
  · simp [h1]
  · simp only [if_neg h1]
    cases hm : cfg.codeTypeMap.lookup (pyUpper (pyStrip (getCol row (typeColName i)))) with
    | none => simp
    | some t => by_cases ht : t ∈ cfg.allowed <;> simp [ht]

theorem tallSlot_fp (cfg : Config) (md : Metadata) (row : CsvRow)
    (pn pid notes mraw : String) (i : Nat) (st : AuditState) (k : String) :
    countOf ((tallSlot cfg md row pn pid notes mraw i st).2).fieldPresence k =
      countOf st.fieldPresence k +
        fpDelta HEADERS_CSV (tallSlotRecs cfg md row pn pid notes mraw i) k := by
  simp only [tallSlot, tallSlotRecs]
  by_cases h1 : pyStrip (getCol row (codeColName i)) = "" ∨
      pyUpper (pyStrip (getCol row (typeColName i))) = ""
  · simp [h1, fpDelta]
  · simp only [if_neg h1]
    cases hm : cfg.codeTypeMap.lookup (pyUpper (pyStrip (getCol row (typeColName i)))) with
    | none => simp [fpDelta]
    | some t =>
        by_cases ht : t ∈ cfg.allowed
        · simp [ht, countOf_logPresence]
        · simp [ht, fpDelta]

theorem tallSlot_ct (cfg : Config) (md : Metadata) (row : CsvRow)
    (pn pid notes mraw : String) (i : Nat) (st : AuditState) (t : String) :
    countOf ((tallSlot cfg md row pn pid notes mraw i st).2).codeTypePresence t =
      countOf st.codeTypePresence t +
        typeCount (tallSlotRecs cfg md row pn pid notes mraw i) t := by
  simp only [tallSlot, tallSlotRecs]
  by_cases h1 : pyStrip (getCol row (codeColName i)) = "" ∨
      pyUpper (pyStrip (getCol row (typeColName i))) = ""
  · simp [h1, typeCount]
  · simp only [if_neg h1]
    cases hm : cfg.codeTypeMap.lookup (pyUpper (pyStrip (getCol row (typeColName i)))) with
    | none => simp [typeCount]
    | some u =>
        by_cases hu : u ∈ cfg.allowed
        · simp only [hu, if_pos, countOf_bumpC]
          by_cases htu : t = u
          · subst htu
            simp [typeCount, List.countP_cons, tallRecord]
          · have : ¬ (tallRecord md row pn pid notes mraw
                (pyStrip (getCol row (codeColName i))) u).codeType = t := by
              simp [tallRecord]; exact fun hh => htu hh.symm
            simp [htu, typeCount, List.countP_cons, this]
        · simp [hu, typeCount]

theorem tallSlot_mod (cfg : Config) (md : Metadata) (row : CsvRow)
    (pn pid notes mraw : String) (i : Nat) (st : AuditState) :
    ((tallSlot cfg md row pn pid notes mraw i st).2).modifierCounts =
      st.modifierCounts := by
  simp only [tallSlot]
  by_cases h1 : pyStrip (getCol row (codeColName i)) = "" ∨
      pyUpper (pyStrip (getCol row (typeColName i))) = ""
  · simp [h1]
  · simp only [if_neg h1]
    cases hm : cfg.codeTypeMap.lookup (pyUpper (pyStrip (getCol row (typeColName i)))) with
    | none => simp
    | some t => by_cases ht : t ∈ cfg.allowed <;> simp [ht]

theorem tallRowStep_fst (cfg : Config) (md : Metadata) (row : CsvRow) (st : AuditState) :
    (tallRowStep cfg md row st).1 = tallRowRecs cfg md row := by
  simp only [tallRowStep, tallRowRecs]
  exact runList_fst _ _ (fun i st => tallSlot_fst cfg md row _ _ _ _ i st) [1, 2, 3, 4] _

theorem tallRowStep_fp (cfg : Config) (md : Metadata) (row : CsvRow)
    (st : AuditState) (k : String) :
    countOf ((tallRowStep cfg md row st).2).fieldPresence k =
      countOf st.fieldPresence k + fpDelta HEADERS_CSV (tallRowRecs cfg md row) k := by
  simp only [tallRowStep, tallRowRecs]
  rw [runList_proj _ (fun s => countOf s.fieldPresence k)
      (fun i => fpDelta HEADERS_CSV (tallSlotRecs cfg md row
        (parsePayer (getCol row "payer_name")).1
        (parsePayer (getCol row "payer_name")).2
        (getCol row "additional_generic_notes")
        (pyStrip (getCol row "modifiers")) i) k)
      (fun i st => tallSlot_fp cfg md row _ _ _ _ i st k)]
  rw [fpDelta_flatMap]

theorem tallRowStep_ct (cfg : Config) (md : Metadata) (row : CsvRow)
    (st : AuditState) (t : String) :
    countOf ((tallRowStep cfg md row st).2).codeTypePresence t =
      countOf st.codeTypePresence t + typeCount (tallRowRecs cfg md row) t := by
  simp only [tallRowStep, tallRowRecs]
  rw [runList_proj _ (fun s => countOf s.codeTypePresence t)
      (fun i => typeCount (tallSlotRecs cfg md row
        (parsePayer (getCol row "payer_name")).1
        (parsePayer (getCol row "payer_name")).2
        (getCol row "additional_generic_notes")
        (pyStrip (getCol row "modifiers")) i) t)
      (fun i st => tallSlot_ct cfg md row _ _ _ _ i st t)]
  rw [typeCount_flatMap]

theorem tallRowStep_mod (cfg : Config) (md : Metadata) (row : CsvRow)
    (st : AuditState) (m : String) :
    countOf ((tallRowStep cfg md row st).2).modifierCounts m =
      countOf st.modifierCounts m +
        (extractModifiers (pyStrip (getCol row "modifiers"))).count m := by
  simp only [tallRowStep]
  rw [runList_proj _ (fun s => countOf s.modifierCounts m) (fun _ => 0)
      (fun i st => by simp only []; rw [tallSlot_mod]; simp)]
  simp [countOf_tallyList]

theorem tallRun_fst (cfg : Config) (md : Metadata) (rows : List CsvRow) (st : AuditState) :
    (tallRun cfg md rows st).1 = tallRecs cfg md rows := by
  simp only [tallRun, tallRecs]
  exact runList_fst _ _ (fun row st => tallRowStep_fst cfg md row st) rows st

theorem tallRun_fp (cfg : Config) (md : Metadata) (rows : List CsvRow)
    (st : AuditState) (k : String) :
    countOf ((tallRun cfg md rows st).2).fieldPresence k =
      countOf st.fieldPresence k + fpDelta HEADERS_CSV (tallRecs cfg md rows) k := by
  simp only [tallRun, tallRecs]
  rw [runList_proj _ (fun s => countOf s.fieldPresence k)
      (fun row => fpDelta HEADERS_CSV (tallRowRecs cfg md row) k)
      (fun row st => tallRowStep_fp cfg md row st k)]
  rw [fpDelta_flatMap]

theorem tallRun_ct (cfg : Config) (md : Metadata) (rows : List CsvRow)
    (st : AuditState) (t : String) :
    countOf ((tallRun cfg md rows st).2).codeTypePresence t =
      countOf st.codeTypePresence t + typeCount (tallRecs cfg md rows) t := by
  simp only [tallRun, tallRecs]
  rw [runList_proj _ (fun s => countOf s.codeTypePresence t)
      (fun row => typeCount (tallRowRecs cfg md row) t)
      (fun row st => tallRowStep_ct cfg md row st t)]
  rw [typeCount_flatMap]

/-- Every record a tall slot emits carries an allowed code type. -/
theorem tallSlotRecs_allowed (cfg : Config) (md : Metadata) (row : CsvRow)
    (pn pid notes mraw : String) (i : Nat) (r : CanonicalRecord)
    (hr : r ∈ tallSlotRecs cfg md row pn pid notes mraw i) :
    r.codeType ∈ cfg.allowed := by
  simp only [tallSlotRecs] at hr
  by_cases h1 : pyStrip (getCol row (codeColName i)) = "" ∨
      pyUpper (pyStrip (getCol row (typeColName i))) = ""
  · simp [h1] at hr
  · simp only [if_neg h1] at hr
    cases hm : cfg.codeTypeMap.lookup (pyUpper (pyStrip (getCol row (typeColName i)))) with
    | none => simp [hm] at hr
    | some t =>
        rw [hm] at hr
        by_cases ht : t ∈ cfg.allowed
        · simp [ht] at hr
          subst hr
          simpa [tallRecord] using ht
        · simp [ht] at hr

theorem tallRecs_allowed (cfg : Config) (md : Metadata) (rows : List CsvRow)
    (r : CanonicalRecord) (hr : r ∈ tallRecs cfg md rows) :
    r.codeType ∈ cfg.allowed := by
  simp only [tallRecs, List.mem_flatMap] at hr
  obtain ⟨row, _, hr⟩ := hr
  simp only [tallRowRecs, List.mem_flatMap] at hr
  obtain ⟨i, _, hr⟩ := hr
  exact tallSlotRecs_allowed cfg md row _ _ _ _ i r hr

/-! ## JSON MRF walker (`json_parser.py`)

JSON objects are modelled as structures whose fields are `Option`s
(`None` marks a missing key); `dict.get(k, "")` becomes `Option.getD ""`.
All scalar values are modelled as the opaque strings the canonical
schema stores. -/

/-- One entry of `payers_information`. -/
structure PayerEntry where
  payer_name : Option String
  payer_id : Option String
  plan_name : Option String
  standard_charge_dollar : Option String
  standard_charge_percentage : Option String
  standard_charge_algorithm : Option String
  negotiated_methodology : Option String
  estimated_amount : Option String
  additional_payer_notes : Option String
  deriving DecidableEq

/-- One entry of `standard_charges`. -/
structure ChargeEntry where
  gross_charge : Option String
  discounted_cash : Option String
  minimum : Option String
  maximum : Option String
  setting : Option String
  payers_information : List PayerEntry
  deriving DecidableEq

/-- One entry of `code_information`. -/
structure CodeEntry where
  code : Option String
  type : Option String
  deriving DecidableEq

/-- The `drug_information` object. -/
structure DrugInfo where
  unit : Option String
  type : Option String
  estimated_amount : Option String
  deriving DecidableEq

/-- A missing `drug_information` key yields the empty dict `{}`. -/
def emptyDrugInfo : DrugInfo := ⟨none, none, none⟩

/-- One line item of `standard_charge_information`. -/
structure ChargeItem where
  description : Option String
  code_information : List CodeEntry
  standard_charges : List ChargeEntry
  drug_information : Option DrugInfo
  deriving DecidableEq

/-- One entry of the standalone `modifier_information` list. -/
structure ModPayerEntry where
  payer_name : Option String
  plan_name : Option String
  description : Option String
  deriving DecidableEq

structure ModifierEntry where
  code : Option String
  description : Option String
  modifier_payer_information : List ModPayerEntry
  deriving DecidableEq

/-- `standard_charge_information` may be a list, an object wrapping a
list under `item`, or anything else (which contributes no items). -/
inductive SCInfo where
  | asList (items : List ChargeItem)
  | asDict (item : List ChargeItem)
  | other
  deriving DecidableEq

/-- Normalize either shape to the list of line items. -/
def SCInfo.items : SCInfo → List ChargeItem
  | .asList l => l
  | .asDict l => l
  | .other => []

/-- The parsed top-level document.  `topLevelKeys` is the raw
`set(root.keys())`, kept for the unused-keys audit. -/
structure JsonDoc where
  version : Option String
  last_updated_on : Option String
  hospital_location : List String
  hospital_address : List String
  standard_charge_information : SCInfo
  modifier_information : List ModifierEntry
  topLevelKeys : List String
  deriving DecidableEq

/-- Python's `x or y` on a possibly missing string: a missing key or an
empty string falls through to `y`. -/
def pyOrStr (o : Option String) (y : String) : String :=
  match o with
  | some s => if s = "" then y else s
  | none => y

/-- The per-payer output row of the standard-charge walk
(`row` at `json_parser.py:141`). -/
def jsonPayerRecord (md : Metadata) (desc : String) (drug : DrugInfo)
    (code nct : String) (ch : ChargeEntry) (p : PayerEntry) : CanonicalRecord where
  hospitalName := md.hospital_name
  zipCode := md.zip_code
  code := code
  codeType := nct
  description := desc
  drugUnit := drug.unit.getD ""
  drugType := drug.type.getD ""
  insurancePayerName := p.payer_name.getD ""
  insurancePayerId := p.payer_id.getD ""
  insurancePlanName := p.plan_name.getD ""
  negotiatedPrice := p.standard_charge_dollar.getD ""
  negotiatedPercentage := p.standard_charge_percentage.getD ""
  negotiatedAlgorithm := p.standard_charge_algorithm.getD ""
  negotiatedMethodology := p.negotiated_methodology.getD ""
  grossCharge := ch.gross_charge.getD ""
  discountedCashPrice := ch.discounted_cash.getD ""
  minPrice := ch.minimum.getD ""
  maxPrice := ch.maximum.getD ""
  estimatedAmount := pyOrStr p.estimated_amount (drug.estimated_amount.getD "")
  setting := ch.setting.getD ""
  additionalNotes := p.additional_payer_notes.getD ""
  modifiers := ""

/-- The output row of a standalone modifier payer entry
(`row` at `json_parser.py:178`): code type is the literal `"MODIFIER"`,
all price fields empty; the dict carries no drug keys, so the CSV writer
fills those columns with its empty default. -/
def modifierRecord (md : Metadata) (modCode modDesc : String)
    (p : ModPayerEntry) : CanonicalRecord where
  hospitalName := md.hospital_name
  zipCode := md.zip_code
  code := modCode
  codeType := "MODIFIER"
  description := modDesc
  drugUnit := ""
  drugType := ""
  insurancePayerName := p.payer_name.getD ""
  insurancePayerId := ""
  insurancePlanName := p.plan_name.getD ""
  negotiatedPrice := ""
  negotiatedPercentage := ""
  negotiatedAlgorithm := ""
  negotiatedMethodology := ""
  grossCharge := ""
  discountedCashPrice := ""
  minPrice := ""
  maxPrice := ""
  estimatedAmount := ""
  setting := ""
  additionalNotes := p.description.getD ""
  modifiers := ""

/-- Innermost loop body: emit one record per payer entry and log its
field presence. -/
def payerStep (md : Metadata) (desc : String) (drug : DrugInfo)
    (code nct : String) (ch : ChargeEntry) (p : PayerEntry)
    (st : AuditState) : List CanonicalRecord × AuditState :=
  let r := jsonPayerRecord md desc drug code nct ch p
  ([r], { st with fieldPresence := logPresence HEADERS_JSON r st.fieldPresence })

/-- One `code_information` entry: normalize the raw type, record the
mapping, and either count it unrecognized or count the canonical type
and walk all charge entries and their payer entries. -/
def codeEntryStep (cfg : Config) (md : Metadata) (desc : String) (drug : DrugInfo)
    (charges : List ChargeEntry) (ce : CodeEntry)
    (st : AuditState) : List CanonicalRecord × AuditState :=
  let rawCT := pyUpper (pyStrip (ce.type.getD ""))
  let nct := cfg.codeTypeMap.lookup rawCT
  let st1 := { st with mappingsUsed := addMapping st.mappingsUsed rawCT nct }
  match nct with
  | some t =>
      if t ∈ cfg.allowed then
        let st2 := { st1 with codeTypePresence := bumpC st1.codeTypePresence t }
        runList (fun ch =>
            runList (payerStep md desc drug (ce.code.getD "") t ch)
              ch.payers_information)
          charges st2
      else ([], { st1 with unknownCodeTypes := bumpC st1.unknownCodeTypes rawCT })
  | none => ([], { st1 with unknownCodeTypes := bumpC st1.unknownCodeTypes rawCT })

/-- One line item: shared description / drug info, then every code
entry. -/
def itemStep (cfg : Config) (md : Metadata) (item : ChargeItem)
    (st : AuditState) : List CanonicalRecord × AuditState :=
  runList
    (codeEntryStep cfg md (item.description.getD "")
      (item.drug_information.getD emptyDrugInfo) item.standard_charges)
    item.code_information st

/-- One standalone modifier entry: tally its code, then emit one record
per `modifier_payer_information` entry. -/
def modifierStep (md : Metadata) (m : ModifierEntry)
    (st : AuditState) : List CanonicalRecord × AuditState :=
  let st1 := { st with modifierCounts := bumpC st.modifierCounts (m.code.getD "") }
  runList
    (fun p stp =>
      let r := modifierRecord md (m.code.getD "") (m.description.getD "") p
      ([r], { stp with fieldPresence := logPresence HEADERS_JSON r stp.fieldPresence }))
    m.modifier_payer_information st1

/-- `parse_json`'s record-emitting walk: all line items, then the
standalone modifier list. -/
def jsonRun (cfg : Config) (md : Metadata) (doc : JsonDoc)
    (st : AuditState) : List CanonicalRecord × AuditState :=
  let p := runList (itemStep cfg md) doc.standard_charge_information.items st
  let q := runList (modifierStep md) doc.modifier_information p.2
  (p.1 ++ q.1, q.2)

/-! ### Pure record descriptions for the JSON walker -/

def chargeRecs (md : Metadata) (desc : String) (drug : DrugInfo)
    (code nct : String) (ch : ChargeEntry) : List CanonicalRecord :=
  ch.payers_information.map (jsonPayerRecord md desc drug code nct ch)

def codeEntryRecs (cfg : Config) (md : Metadata) (desc : String) (drug : DrugInfo)
    (charges : List ChargeEntry) (ce : CodeEntry) : List CanonicalRecord :=
  let rawCT := pyUpper (pyStrip (ce.type.getD ""))
  match cfg.codeTypeMap.lookup rawCT with
  | some t =>
      if t ∈ cfg.allowed then
        charges.flatMap (chargeRecs md desc drug (ce.code.getD "") t)
      else []
  | none => []

def itemRecs (cfg : Config) (md : Metadata) (item : ChargeItem) : List CanonicalRecord :=
  item.code_information.flatMap
    (codeEntryRecs cfg md (item.description.getD "")
      (item.drug_information.getD emptyDrugInfo) item.standard_charges)

def modifierRecs (md : Metadata) (m : ModifierEntry) : List CanonicalRecord :=
  m.modifier_payer_information.map
    (modifierRecord md (m.code.getD "") (m.description.getD ""))

def jsonRecs (cfg : Config) (md : Metadata) (doc : JsonDoc) : List CanonicalRecord :=
  doc.standard_charge_information.items.flatMap (itemRecs cfg md) ++
    doc.modifier_information.flatMap (modifierRecs md)

/-! ### JSON dev log -/

/-- Insertion sort by the string order (Python `sorted`). -/
def insertSorted (x : String) : List String → List String
  | [] => [x]
  | y :: ys => if x < y ∨ x = y then x :: y :: ys else y :: insertSorted x ys

def sortStrings (l : List String) : List String := l.foldr insertSorted []

/-- `known_keys_used` at `json_parser.py:93`. -/
def knownKeysUsed : List String :=
  ["standard_charge_information", "hospital_location", "hospital_address",
   "modifier_information"]

/-- The audit JSON written by the JSON walker. -/
structure JsonDevLog where
  raw_hospital_location : Option String
  raw_hospital_address : Option String
  mrf_version : Option String
  mrf_last_updated : Option String
  field_presence_summary : List (String × Nat)
  unrecognized_code_types : Counter
  missing_code_types : List String
  code_type_presence : Counter
  code_type_normalizations_used : Mappings
  modifier_counts : Counter
  unused_optional_json_keys : List String
  deriving DecidableEq

/-- Dev log from the final accumulator state.  The early streaming scan
surfaces the first `hospital_location` / `hospital_address` array items
(modelled for documents laid out with those arrays in that order, which
is all the claims need — no claim constrains these two echo fields). -/
def mkJsonDevLog (cfg : Config) (doc : JsonDoc) (st : AuditState) : JsonDevLog where
  raw_hospital_location := doc.hospital_location.head?
  raw_hospital_address := doc.hospital_address.head?
  mrf_version := doc.version
  mrf_last_updated := doc.last_updated_on
  field_presence_summary := fullFieldSummary HEADERS_JSON st.fieldPresence
  unrecognized_code_types := st.unknownCodeTypes
  missing_code_types := cfg.allowed.filter fun ct => countOf st.codeTypePresence ct = 0
  code_type_presence := touchAll st.codeTypePresence cfg.allowed
  code_type_normalizations_used := st.mappingsUsed
  modifier_counts := st.modifierCounts
  unused_optional_json_keys :=
    sortStrings ((doc.topLevelKeys.dedup).filter fun k => k ∉ knownKeysUsed)

/-- `parse_json`: records, final accumulators, dev log. -/
def jsonWalk (cfg : Config) (md : Metadata) (doc : JsonDoc)
    (st : AuditState) : List CanonicalRecord × AuditState × JsonDevLog :=
  let p := jsonRun cfg md doc st
  (p.1, p.2, mkJsonDevLog cfg doc p.2)

/-! ### JSON walker lemmas -/

theorem flatMap_singleton_eq_map {α β : Type} (f : α → β) (l : List α) :
    (l.flatMap fun a => [f a]) = l.map f := by
  induction l with
  | nil => rfl
  | cons a l ih => simp [List.flatMap_cons, ih]

theorem payerStep_fst (md : Metadata) (desc : String) (drug : DrugInfo)
    (code nct : String) (ch : ChargeEntry) (p : PayerEntry) (st : AuditState) :
    (payerStep md desc drug code nct ch p st).1 =
      [jsonPayerRecord md desc drug code nct ch p] := rfl

theorem payerStep_fp (md : Metadata) (desc : String) (drug : DrugInfo)
    (code nct : String) (ch : ChargeEntry) (p : PayerEntry) (st : AuditState)
    (k : String) :
    countOf ((payerStep md desc drug code nct ch p st).2).fieldPresence k =
      countOf st.fieldPresence k +
        fpDelta HEADERS_JSON [jsonPayerRecord md desc drug code nct ch p] k := by
  simp [payerStep, countOf_logPresence]

theorem payerStep_ct (md : Metadata) (desc : String) (drug : DrugInfo)
    (code nct : String) (ch : ChargeEntry) (p : PayerEntry) (st : AuditState) :
    ((payerStep md desc drug code nct ch p st).2).codeTypePresence =
      st.codeTypePresence := rfl

theorem chargeLoop_fst (md : Metadata) (desc : String) (drug : DrugInfo)
    (code nct : String) (ch : ChargeEntry) (st : AuditState) :
    (runList (payerStep md desc drug code nct ch) ch.payers_information st).1 =
      chargeRecs md desc drug code nct ch := by
  rw [runList_fst _ (fun p => [jsonPayerRecord md desc drug code nct ch p])
      (fun p st => rfl)]
  simp [chargeRecs, flatMap_singleton_eq_map]

theorem chargeLoop_fp (md : Metadata) (desc : String) (drug : DrugInfo)
    (code nct : String) (ch : ChargeEntry) (st : AuditState) (k : String) :
    countOf ((runList (payerStep md desc drug code nct ch)
        ch.payers_information st).2).fieldPresence k =
      countOf st.fieldPresence k +
        fpDelta HEADERS_JSON (chargeRecs md desc drug code nct ch) k := by
  rw [runList_proj _ (fun s => countOf s.fieldPresence k)
      (fun p => fpDelta HEADERS_JSON [jsonPayerRecord md desc drug code nct ch p] k)
      (fun p st => payerStep_fp md desc drug code nct ch p st k)]
  rw [fpDelta_flatMap HEADERS_JSON
      (fun p => [jsonPayerRecord md desc drug code nct ch p]) k ch.payers_information]
  simp [chargeRecs, flatMap_singleton_eq_map]

theorem codeEntryStep_fst (cfg : Config) (md : Metadata) (desc : String)
    (drug : DrugInfo) (charges : List ChargeEntry) (ce : CodeEntry)
    (st : AuditState) :
    (codeEntryStep cfg md desc drug charges ce st).1 =
      codeEntryRecs cfg md desc drug charges ce := by
  simp only [codeEntryStep, codeEntryRecs]
  cases hm : cfg.codeTypeMap.lookup (pyUpper (pyStrip (ce.type.getD ""))) with
  | none => simp
  | some t =>
      by_cases ht : t ∈ cfg.allowed
      · simp only [ht, if_pos]
        rw [runList_fst _ (fun ch => chargeRecs md desc drug (ce.code.getD "") t ch)
            (fun ch st => chargeLoop_fst md desc drug (ce.code.getD "") t ch st)]
      · simp [ht]

theorem codeEntryStep_fp (cfg : Config) (md : Metadata) (desc : String)
    (drug : DrugInfo) (charges : List ChargeEntry) (ce : CodeEntry)
    (st : AuditState) (k : String) :
    countOf ((codeEntryStep cfg md desc drug charges ce st).2).fieldPresence k =
      countOf st.fieldPresence k +
        fpDelta HEADERS_JSON (codeEntryRecs cfg md desc drug charges ce) k := by
  simp only [codeEntryStep, codeEntryRecs]
  cases hm : cfg.codeTypeMap.lookup (pyUpper (pyStrip (ce.type.getD ""))) with
  | none => simp [fpDelta]
  | some t =>
      by_cases ht : t ∈ cfg.allowed
      · simp only [ht, if_pos]
        rw [runList_proj _ (fun s => countOf s.fieldPresence k)
            (fun ch => fpDelta HEADERS_JSON
              (chargeRecs md desc drug (ce.code.getD "") t ch) k)
            (fun ch st => chargeLoop_fp md desc drug (ce.code.getD "") t ch st k)]
        rw [fpDelta_flatMap]
      · simp [ht, fpDelta]

theorem itemStep_fst (cfg : Config) (md : Metadata) (item : ChargeItem)
    (st : AuditState) :
    (itemStep cfg md item st).1 = itemRecs cfg md item := by
  simp only [itemStep, itemRecs]
  exact runList_fst _ _
    (fun ce st => codeEntryStep_fst cfg md _ _ _ ce st) item.code_information st

theorem itemStep_fp (cfg : Config) (md : Metadata) (item : ChargeItem)
    (st : AuditState) (k : String) :
    countOf ((itemStep cfg md item st).2).fieldPresence k =
      countOf st.fieldPresence k + fpDelta HEADERS_JSON (itemRecs cfg md item) k := by
  simp only [itemStep, itemRecs]
  rw [runList_proj _ (fun s => countOf s.fieldPresence k)
      (fun ce => fpDelta HEADERS_JSON (codeEntryRecs cfg md (item.description.getD "")
        (item.drug_information.getD emptyDrugInfo) item.standard_charges ce) k)
      (fun ce st => codeEntryStep_fp cfg md _ _ _ ce st k)]
  rw [fpDelta_flatMap]

theorem modifierStep_fst (md : Metadata) (m : ModifierEntry) (st : AuditState) :
    (modifierStep md m st).1 = modifierRecs md m := by
  simp only [modifierStep, modifierRecs]
  rw [runList_fst _
      (fun p => [modifierRecord md (m.code.getD "") (m.description.getD "") p])
      (fun p st => rfl)]
  simp [flatMap_singleton_eq_map]

theorem modifierStep_fp (md : Metadata) (m : ModifierEntry) (st : AuditState)
    (k : String) :
    countOf ((modifierStep md m st).2).fieldPresence k =
      countOf st.fieldPresence k + fpDelta HEADERS_JSON (modifierRecs md m) k := by
  simp only [modifierStep, modifierRecs]
  rw [runList_proj _ (fun s => countOf s.fieldPresence k)
      (fun p => fpDelta HEADERS_JSON
        [modifierRecord md (m.code.getD "") (m.description.getD "") p] k)
      (fun p st => by simp only []; rw [countOf_logPresence])]
  rw [fpDelta_flatMap HEADERS_JSON
      (fun p => [modifierRecord md (m.code.getD "") (m.description.getD "") p]) k
      m.modifier_payer_information]
  simp [flatMap_singleton_eq_map]

theorem jsonRun_fst (cfg : Config) (md : Metadata) (doc : JsonDoc) (st : AuditState) :
    (jsonRun cfg md doc st).1 = jsonRecs cfg md doc := by
  simp only [jsonRun, jsonRecs]
  rw [runList_fst _ (itemRecs cfg md) (fun item st => itemStep_fst cfg md item st),
    runList_fst _ (modifierRecs md) (fun m st => modifierStep_fst md m st)]

theorem jsonRun_fp (cfg : Config) (md : Metadata) (doc : JsonDoc) (st : AuditState)
    (k : String) :
    countOf ((jsonRun cfg md doc st).2).fieldPresence k =
      countOf st.fieldPresence k + fpDelta HEADERS_JSON (jsonRecs cfg md doc) k := by
  simp only [jsonRun, jsonRecs]
  rw [runList_proj _ (fun s => countOf s.fieldPresence k)
      (fun m => fpDelta HEADERS_JSON (modifierRecs md m) k)
      (fun m st => modifierStep_fp md m st k)]
  rw [runList_proj _ (fun s => countOf s.fieldPresence k)
      (fun item => fpDelta HEADERS_JSON (itemRecs cfg md item) k)
      (fun item st => itemStep_fp cfg md item st k)]
  rw [fpDelta_append, fpDelta_flatMap, fpDelta_flatMap]
  ring

/-- Every record of the standard-charge walk carries an allowed type;
every record of the modifier walk carries the literal `"MODIFIER"`. -/
theorem jsonRecs_allowed_or_modifier (cfg : Config) (md : Metadata) (doc : JsonDoc)
    (r : CanonicalRecord) (hr : r ∈ jsonRecs cfg md doc) :
    r.codeType ∈ cfg.allowed ∨ r.codeType = "MODIFIER" := by
  simp only [jsonRecs, List.mem_append] at hr
  rcases hr with hr | hr
  · left
    simp only [List.mem_flatMap] at hr
    obtain ⟨item, _, hr⟩ := hr
    simp only [itemRecs, List.mem_flatMap] at hr
    obtain ⟨ce, _, hr⟩ := hr
    simp only [codeEntryRecs] at hr
    cases hm : cfg.codeTypeMap.lookup (pyUpper (pyStrip (ce.type.getD ""))) with
    | none => simp [hm] at hr
    | some t =>
        rw [hm] at hr
        by_cases ht : t ∈ cfg.allowed
        · simp only [ht, if_true] at hr
          simp only [List.mem_flatMap, chargeRecs, List.mem_map] at hr
          obtain ⟨ch, _, p, _, hp⟩ := hr
          subst hp
          simpa [jsonPayerRecord] using ht
        · simp [ht] at hr
  · right
    simp only [List.mem_flatMap, modifierRecs, List.mem_map] at hr
    obtain ⟨m, _, p, _, hp⟩ := hr
    subst hp
    rfl

/-! ## Wide-format CSV extractor (`wide_format_csv_extractor.py`) -/

/-- `STANDARD_CHARGE_PREFIXES`: known canonical-field keys of pivoted
columns → canonical field names. -/
def STANDARD_CHARGE_KEYS : List (String × String) :=
  [("negotiated_dollar", "negotiated price"),
   ("negotiated_percentage", "negotiated percentage"),
   ("negotiated_algorithm", "negotiated algorithm"),
   ("estimated_amount", "estimated amount"),
   ("methodology", "negotiated methodology"),
   ("additional_payer_notes", "additional notes")]

/-- `col.count("|")`. -/
def pipeCount (s : String) : Nat := s.data.count '|'

/-- Column selection at `wide_format_csv_extractor.py:89`: at least two
pipes, and either exactly two pipes with a known first segment, or more
with a known last segment (segments stripped, the whole name stripped
before splitting). -/
def isPayerCol (col : String) : Bool :=
  decide (pipeCount col ≥ 2) &&
    ((decide (pipeCount col = 2) &&
        (STANDARD_CHARGE_KEYS.lookup (pyStrip ((pySplitPipe (pyStrip col)).headD ""))).isSome)
      ||
     (decide (pipeCount col > 2) &&
        (STANDARD_CHARGE_KEYS.lookup (pyStrip ((pySplitPipe (pyStrip col)).getLastD ""))).isSome))

/-- `parse_column_for_payer`: strip the pipe-split segments and return
the first three, or `None`s when there are fewer than three. -/
def parse_column_for_payer (colname : String) :
    Option String × Option String × Option String :=
  let parts := (pySplitPipe colname).map pyStrip
  if parts.length < 3 then (none, none, none)
  else (some (parts.getD 0 ""), some (parts.getD 1 ""), some (parts.getD 2 ""))

/-- The wide resolver's group key `(code, normalized type, payer, plan)`. -/
abbrev WideKey := String × String × String × String

/-- `payer_row_map`: group key → accumulated field dict, both in
insertion order. -/
abbrev RowMap := List (WideKey × List (String × String))

/-- `fd[field] = value` on the inner dict: overwrite in place or append. -/
def setField : List (String × String) → String → String → List (String × String)
  | [], f, v => [(f, v)]
  | (g, w) :: rest, f, v =>
      if g = f then (g, v) :: rest else (g, w) :: setField rest f v

/-- `payer_row_map[key][field] = value` on the outer defaultdict. -/
def mapSet : RowMap → WideKey → String → String → RowMap
  | [], k, f, v => [(k, [(f, v)])]
  | (k0, fd) :: rest, k, f, v =>
      if k0 = k then (k0, setField fd f v) :: rest
      else (k0, fd) :: mapSet rest k f v

/-- `field_data.pop("additional notes", "")`: the value (or default) and
the dict without that key. -/
def popField : List (String × String) → String → String × List (String × String)
  | [], _ => ("", [])
  | (f, v) :: rest, k =>
      if f = k then (v, rest)
      else
        let p := popField rest k
        (p.1, (f, v) :: p.2)

/-- `", ".join(filter(None, xs))`. -/
def joinNonEmpty (xs : List String) : String :=
  String.intercalate ", " (xs.filter fun s => s ≠ "")

/-- The record built for one group key
(`record` at `wide_format_csv_extractor.py:144`).  The source dict never
carries an `insurance payer id` key; `pd.DataFrame(rows, columns=HEADERS)`
followed by `to_csv` writes that column empty, so the field is `""`. -/
def wideRecord (md : Metadata) (row : CsvRow) (k : WideKey)
    (fd : List (String × String)) (combinedNotes modifiersRaw : String) :
    CanonicalRecord where
  hospitalName := md.hospital_name
  zipCode := md.zip_code
  code := k.1
  codeType := k.2.1
  insurancePayerName := k.2.2.1
  insurancePlanName := k.2.2.2
  insurancePayerId := ""
  negotiatedPrice := (fd.lookup "negotiated price").getD ""
  negotiatedPercentage := (fd.lookup "negotiated percentage").getD ""
  negotiatedAlgorithm := (fd.lookup "negotiated algorithm").getD ""
  negotiatedMethodology := (fd.lookup "negotiated methodology").getD ""
  estimatedAmount := (fd.lookup "estimated amount").getD ""
  drugUnit := getCol row "drug_unit_of_measurement"
  drugType := getCol row "drug_type_of_measurement"
  description := getCol row "description"
  grossCharge := getCol row "standard_charge|gross"
  discountedCashPrice := getCol row "standard_charge|discounted_cash"
  minPrice := getCol row "standard_charge|min"
  maxPrice := getCol row "standard_charge|max"
  setting := getCol row "setting"
  additionalNotes := combinedNotes
  modifiers := modifiersRaw

/-- The keys of the wide `record` dict, in insertion order: `for k in
record` iterates these 21 keys — `insurance payer id` is absent. -/
def WIDE_RECORD_KEYS : List String :=
  ["hospital name", "zip code", "code", "code type", "insurance payer name",
   "insurance plan name", "negotiated price", "negotiated percentage",
   "negotiated algorithm", "negotiated methodology", "estimated amount",
   "drug unit", "drug type", "description", "gross charge",
   "discounted cash price", "min price", "max price", "setting",
   "additional notes", "modifiers"]

/-- The inner `for i in range(1, 5)` body of the payer-column loop:
test the slot's code/type, record the normalization, and on success file
the column's value under the group key. -/
def wideSlotStep (cfg : Config) (row : CsvRow)
    (payerName planName mappedField value : String) (i : Nat)
    (acc : RowMap × AuditState) : RowMap × AuditState :=
  let code := pyStrip (getCol row (codeColName i))
  let rawCT := pyUpper (pyStrip (getCol row (typeColName i)))
  if code = "" ∨ rawCT = "" then acc
  else
    let nct := cfg.codeTypeMap.lookup rawCT
    let st1 := { acc.2 with mappingsUsed := addMapping acc.2.mappingsUsed rawCT nct }
    match nct with
    | some t =>
        if t ∈ cfg.allowed then
          (mapSet acc.1 (code, t, payerName, planName) mappedField value,
           { st1 with codeTypePresence := bumpC st1.codeTypePresence t })
        else (acc.1, { st1 with unknownCodeTypes := bumpC st1.unknownCodeTypes rawCT })
    | none => (acc.1, { st1 with unknownCodeTypes := bumpC st1.unknownCodeTypes rawCT })

/-- One selected payer column of a row (`for col in payer_cols` body). -/
def wideColStep (cfg : Config) (row : CsvRow) (col : String)
    (acc : RowMap × AuditState) : RowMap × AuditState :=
  let parts := (pySplitPipe col).map pyStrip
  if parts.length < 3 then acc
  else
    let fieldKey := if parts.length = 3 then parts.headD "" else parts.getLastD ""
    match STANDARD_CHARGE_KEYS.lookup fieldKey with
    | none => acc
    | some mappedField =>
        let pp := parse_column_for_payer col
        let payerName := pp.2.1.getD ""
        let planName := pp.2.2.getD ""
        if payerName = "" then acc
        else
          let value := getCol row col
          if value = "" then acc
          else
            [1, 2, 3, 4].foldl
              (fun a i => wideSlotStep cfg row payerName planName mappedField value i a)
              acc

/-- Emit the record of one accumulated group (`for (code, code_type,
payer, plan), field_data in payer_row_map.items()` body). -/
def wideEmit (md : Metadata) (row : CsvRow) (genericNotes modifiersRaw : String)
    (e : WideKey × List (String × String)) (st : AuditState) :
    List CanonicalRecord × AuditState :=
  let p := popField e.2 "additional notes"
  let combined := joinNonEmpty [genericNotes, p.1]
  let r := wideRecord md row e.1 p.2 combined modifiersRaw
  ([r], { st with fieldPresence := logPresence WIDE_RECORD_KEYS r st.fieldPresence })

/-- One body row of the wide CSV: tally modifiers, regroup all selected
payer columns by group key, then emit one record per group. -/
def wideRowStep (cfg : Config) (md : Metadata) (payerCols : List String)
    (row : CsvRow) (st : AuditState) : List CanonicalRecord × AuditState :=
  let genericNotes := pyStrip (getCol row "additional_generic_notes")
  let modifiersRaw := pyStrip (getCol row "modifiers")
  let st1 := { st with
                 modifierCounts := tallyList st.modifierCounts (extractModifiers modifiersRaw) }
  let acc := payerCols.foldl (fun a col => wideColStep cfg row col a) (([], st1) : RowMap × AuditState)
  runList (wideEmit md row genericNotes modifiersRaw) acc.1 acc.2

/-- Wide source file: two metadata rows, the body column names, and the
body rows. -/
structure WideInput where
  metaPairs : List (String × String)
  columns : List String
  rows : List CsvRow

/-- The whole wide body walk. -/
def wideRun (cfg : Config) (md : Metadata) (inp : WideInput)
    (st : AuditState) : List CanonicalRecord × AuditState :=
  runList (wideRowStep cfg md (inp.columns.filter isPayerCol)) inp.rows st

/-! ### Pure contribution / record descriptions for the wide walker -/

/-- One (group key, canonical field, value) contribution. -/
abbrev Contrib := WideKey × String × String

/-- Contributions of one slot of one selected column. -/
def slotContribs (cfg : Config) (row : CsvRow)
    (payerName planName mappedField value : String) (i : Nat) : List Contrib :=
  let code := pyStrip (getCol row (codeColName i))
  let rawCT := pyUpper (pyStrip (getCol row (typeColName i)))
  if code = "" ∨ rawCT = "" then []
  else
    match cfg.codeTypeMap.lookup rawCT with
    | some t =>
        if t ∈ cfg.allowed then
          [((code, t, payerName, planName), mappedField, value)]
        else []
    | none => []

/-- Contributions of one selected column. -/
def colContribs (cfg : Config) (row : CsvRow) (col : String) : List Contrib :=
  let parts := (pySplitPipe col).map pyStrip
  if parts.length < 3 then []
  else
    let fieldKey := if parts.length = 3 then parts.headD "" else parts.getLastD ""
    match STANDARD_CHARGE_KEYS.lookup fieldKey with
    | none => []
    | some mappedField =>
        let pp := parse_column_for_payer col
        let payerName := pp.2.1.getD ""
        let planName := pp.2.2.getD ""
        if payerName = "" then []
        else
          let value := getCol row col
          if value = "" then []
          else
            [1, 2, 3, 4].flatMap
              (slotContribs cfg row payerName planName mappedField value)

/-- Contributions of a whole row, in column-scan order. -/
def rowContribs (cfg : Config) (row : CsvRow) (payerCols : List String) : List Contrib :=
  payerCols.flatMap (colContribs cfg row)

/-- Replay a contribution sequence into a `payer_row_map`. -/
def buildRowMap (m : RowMap) (cs : List Contrib) : RowMap :=
  cs.foldl (fun m c => mapSet m c.1 c.2.1 c.2.2) m

/-- Pure description of one wide row's emitted records. -/
def wideRowRecs (cfg : Config) (md : Metadata) (payerCols : List String)
    (row : CsvRow) : List CanonicalRecord :=
  let genericNotes := pyStrip (getCol row "additional_generic_notes")
  let modifiersRaw := pyStrip (getCol row "modifiers")
  (buildRowMap [] (rowContribs cfg row payerCols)).map fun e =>
    let p := popField e.2 "additional notes"
    wideRecord md row e.1 p.2 (joinNonEmpty [genericNotes, p.1]) modifiersRaw

/-- Pure description of the whole wide run's emitted records. -/
def wideRecs (cfg : Config) (md : Metadata) (inp : WideInput) : List CanonicalRecord :=
  inp.rows.flatMap (wideRowRecs cfg md (inp.columns.filter isPayerCol))

/-! ### Wide dev log -/

/-- The audit JSON written by the wide walker. -/
structure WideDevLog where
  payer_columns_parsed : Nat
  total_rows_extracted : Nat
  raw_hospital_location : String
  raw_hospital_address : String
  mrf_version : String
  mrf_last_updated : String
  field_presence_summary : List (String × Nat)
  unrecognized_code_types : Counter
  missing_code_types : List String
  code_type_presence : Counter
  code_type_normalizations_used : Mappings
  modifier_counts : Counter
  deriving DecidableEq

def mkWideDevLog (cfg : Config) (inp : WideInput) (recCount : Nat)
    (st : AuditState) : WideDevLog where
  payer_columns_parsed := (inp.columns.filter isPayerCol).length
  total_rows_extracted := recCount
  raw_hospital_location := (inp.metaPairs.lookup "hospital_location").getD ""
  raw_hospital_address := (inp.metaPairs.lookup "hospital_address").getD ""
  mrf_version := (inp.metaPairs.lookup "version").getD ""
  mrf_last_updated := (inp.metaPairs.lookup "last_updated_on").getD ""
  field_presence_summary := fullFieldSummary HEADERS_CSV st.fieldPresence
  unrecognized_code_types := st.unknownCodeTypes
  missing_code_types := cfg.allowed.filter fun ct => countOf st.codeTypePresence ct = 0
  code_type_presence := touchAll st.codeTypePresence cfg.allowed
  code_type_normalizations_used := st.mappingsUsed
  modifier_counts := st.modifierCounts

/-- `extract_wide_format_csv`: records, final accumulators, dev log. -/
def wideWalk (cfg : Config) (md : Metadata) (inp : WideInput)
    (st : AuditState) : List CanonicalRecord × AuditState × WideDevLog :=
  let p := wideRun cfg md inp st
  (p.1, p.2, mkWideDevLog cfg inp p.1.length p.2)

/-! ### Pure lemmas about the row map -/

theorem lookup_cons_key {α β : Type} [BEq α] [LawfulBEq α] [DecidableEq α]
    (x y : α) (n : β) (rest : List (α × β)) :
    List.lookup x ((y, n) :: rest) = if x = y then some n else List.lookup x rest := by
  by_cases h : x = y
  · subst h; simp [List.lookup]
  · simp [List.lookup, beq_eq_false_iff_ne.mpr h, h]

theorem lookup_setField (fd : List (String × String)) (f v g : String) :
    (setField fd f v).lookup g = if g = f then some v else fd.lookup g := by
  induction fd with
  | nil => by_cases h : g = f <;> simp [setField, lookup_cons, h]
  | cons p rest ih =>
      obtain ⟨f0, v0⟩ := p
      by_cases h0 : f0 = f
      · subst h0
        by_cases hg : g = f0 <;> simp [setField, lookup_cons, hg]
      · by_cases hg : g = f0
        · subst hg
          simp [setField, h0, lookup_cons]
        · simp [setField, h0, lookup_cons, hg, ih]

/-- `payer_row_map[key]` read as a plain dict (empty for absent keys). -/
def lookupKF (m : RowMap) (k : WideKey) (f : String) : Option String :=
  ((m.lookup k).getD []).lookup f

theorem lookup_mapSet (m : RowMap) (k : WideKey) (f v : String) (k' : WideKey) :
    (mapSet m k f v).lookup k' =
      if k' = k then some (setField ((m.lookup k).getD []) f v)
      else m.lookup k' := by
  induction m with
  | nil => by_cases h : k' = k <;> simp [mapSet, setField, lookup_cons_key, h]
  | cons p rest ih =>
      obtain ⟨k0, fd0⟩ := p
      by_cases h0 : k0 = k
      · subst h0
        by_cases h' : k' = k0 <;> simp [mapSet, lookup_cons_key, h']
      · have hkk0 : ¬ k = k0 := fun h => h0 h.symm
        by_cases h' : k' = k0
        · subst h'
          simp [mapSet, h0, lookup_cons_key, hkk0]
        · simp [mapSet, h0, lookup_cons_key, h', hkk0, ih]

/-- The latest value filed for `(k, f)` in a contribution sequence
(later contributions override earlier ones). -/
def lastMatch (cs : List Contrib) (k : WideKey) (f : String) : Option String :=
  cs.foldl (fun acc c => if c.1 = k ∧ c.2.1 = f then some c.2.2 else acc) none

theorem lastMatch_foldl (k : WideKey) (f : String) :
    ∀ (cs : List Contrib) (a : Option String),
      cs.foldl (fun acc c => if c.1 = k ∧ c.2.1 = f then some c.2.2 else acc) a =
        (lastMatch cs k f).elim a some := by
  intro cs
  induction cs with
  | nil => intro a; simp [lastMatch]
  | cons c cs ih =>
      intro a
      have hlm : lastMatch (c :: cs) k f =
          (lastMatch cs k f).elim (if c.1 = k ∧ c.2.1 = f then some c.2.2 else none) some := by
        simp only [lastMatch, List.foldl]
        exact ih _
      simp only [List.foldl]
      rw [ih, hlm]
      cases hcs : lastMatch cs k f with
      | some v => simp
      | none =>
          by_cases hc : c.1 = k ∧ c.2.1 = f <;> simp [hc]

theorem lookupKF_buildRowMap (k : WideKey) (f : String) :
    ∀ (cs : List Contrib) (m : RowMap),
      lookupKF (buildRowMap m cs) k f =
        (lastMatch cs k f).elim (lookupKF m k f) some := by
  intro cs
  induction cs with
  | nil => intro m; simp [buildRowMap, lastMatch]
  | cons c cs ih =>
      intro m
      have hstep : buildRowMap m (c :: cs) =
          buildRowMap (mapSet m c.1 c.2.1 c.2.2) cs := rfl
      have hlm : lastMatch (c :: cs) k f =
          (lastMatch cs k f).elim (if c.1 = k ∧ c.2.1 = f then some c.2.2 else none) some := by
        simp only [lastMatch, List.foldl]
        exact lastMatch_foldl k f cs _
      have hset : lookupKF (mapSet m c.1 c.2.1 c.2.2) k f =
          if c.1 = k ∧ c.2.1 = f then some c.2.2 else lookupKF m k f := by
        simp only [lookupKF, lookup_mapSet]
        by_cases hk : k = c.1
        · subst hk
          simp only [if_pos rfl, Option.getD_some, lookup_setField]
          by_cases hf : f = c.2.1
          · simp [hf, lookup_setField]
          · have hf2 : ¬ c.2.1 = f := fun h => hf h.symm
            simp [hf, hf2, lookup_setField, lookupKF]
        · have hna : ¬ (c.1 = k ∧ c.2.1 = f) := fun h => hk h.1.symm
          simp [hk, hna, lookupKF]
      rw [hstep, ih, hset, hlm]
      cases hcs : lastMatch cs k f with
      | some v => simp
      | none => by_cases hc : c.1 = k ∧ c.2.1 = f <;> simp [hc]

/-- The keys of the row map, in insertion order. -/
def mapKeys (m : RowMap) : List WideKey := m.map Prod.fst

theorem mapKeys_mapSet (m : RowMap) (k : WideKey) (f v : String) :
    mapKeys (mapSet m k f v) =
      if k ∈ mapKeys m then mapKeys m else mapKeys m ++ [k] := by
  induction m with
  | nil => simp [mapSet, mapKeys]
  | cons p rest ih =>
      obtain ⟨k0, fd0⟩ := p
      by_cases h0 : k0 = k
      · subst h0
        simp [mapSet, mapKeys]
      · have hne : ¬ k = k0 := fun h => h0 h.symm
        simp only [mapKeys] at ih ⊢
        simp only [mapSet, if_neg h0, List.map_cons]
        rw [ih]
        by_cases hmem : k ∈ rest.map Prod.fst
        · simp [List.mem_cons, hne, hmem]
        · simp [List.mem_cons, hne, hmem]

/-- First-occurrence dedup of `ks` appended onto `l`. -/
def dedupInto (l : List WideKey) (ks : List WideKey) : List WideKey :=
  ks.foldl (fun acc k => if k ∈ acc then acc else acc ++ [k]) l

theorem mapKeys_buildRowMap :
    ∀ (cs : List Contrib) (m : RowMap),
      mapKeys (buildRowMap m cs) = dedupInto (mapKeys m) (cs.map Prod.fst) := by
  intro cs
  induction cs with
  | nil => intro m; simp [buildRowMap, dedupInto]
  | cons c cs ih =>
      intro m
      have hstep : buildRowMap m (c :: cs) =
          buildRowMap (mapSet m c.1 c.2.1 c.2.2) cs := rfl
      have hded : dedupInto (mapKeys m) ((c :: cs).map Prod.fst) =
          dedupInto (if c.1 ∈ mapKeys m then mapKeys m else mapKeys m ++ [c.1])
            (cs.map Prod.fst) := rfl
      rw [hstep, ih, hded, mapKeys_mapSet]

theorem dedupInto_nodup :
    ∀ (ks : List WideKey) (l : List WideKey), l.Nodup → (dedupInto l ks).Nodup := by
  intro ks
  induction ks with
  | nil => intro l h; exact h
  | cons k ks ih =>
      intro l h
      have hstep : dedupInto l (k :: ks) =
          dedupInto (if k ∈ l then l else l ++ [k]) ks := rfl
      rw [hstep]
      by_cases hmem : k ∈ l
      · simp only [hmem, if_true]
        exact ih l h
      · simp only [hmem, if_false]
        refine ih _ ?_
        simp [List.nodup_append, h, hmem]

theorem mem_dedupInto (x : WideKey) :
    ∀ (ks : List WideKey) (l : List WideKey),
      x ∈ dedupInto l ks ↔ x ∈ l ∨ x ∈ ks := by
  intro ks
  induction ks with
  | nil => intro l; simp [dedupInto]
  | cons k ks ih =>
      intro l
      have hstep : dedupInto l (k :: ks) =
          dedupInto (if k ∈ l then l else l ++ [k]) ks := rfl
      rw [hstep]
      by_cases hmem : k ∈ l
      · simp only [hmem, if_true]
        rw [ih l]
        constructor
        · rintro (h | h)
          · exact Or.inl h
          · exact Or.inr (List.mem_cons_of_mem _ h)
        · rintro (h | h)
          · exact Or.inl h
          · rcases List.mem_cons.mp h with rfl | h
            · exact Or.inl hmem
            · exact Or.inr h
      · simp only [hmem, if_false]
        rw [ih (l ++ [k])]
        simp [List.mem_append, List.mem_cons, or_assoc]

theorem popField_fst (l : List (String × String)) (k : String) :
    (popField l k).1 = (l.lookup k).getD "" := by
  induction l with
  | nil => rfl
  | cons p rest ih =>
      obtain ⟨f, v⟩ := p
      by_cases h : f = k
      · subst h
        simp [popField, lookup_cons]
      · have hkf : ¬ k = f := fun hh => h hh.symm
        simp [popField, h, lookup_cons, hkf, ih]

theorem lookup_popField_snd (l : List (String × String)) (k g : String)
    (hne : g ≠ k) :
    ((popField l k).2).lookup g = l.lookup g := by
  induction l with
  | nil => rfl
  | cons p rest ih =>
      obtain ⟨f, v⟩ := p
      by_cases h : f = k
      · subst h
        simp [popField, lookup_cons, hne]
      · by_cases hg : g = f
        · subst hg
          simp [popField, h, lookup_cons]
        · simp [popField, h, lookup_cons, hg, ih]

theorem lookup_of_mem_nodupKeys :
    ∀ (m : RowMap), (mapKeys m).Nodup →
      ∀ (k : WideKey) (fd : List (String × String)), (k, fd) ∈ m →
        m.lookup k = some fd := by
  intro m
  induction m with
  | nil => intro _ k fd h; simp at h
  | cons p rest ih =>
      obtain ⟨k0, fd0⟩ := p
      intro hnd k fd hmem
      rcases List.mem_cons.mp hmem with heq | hmem'
      · injection heq with h1 h2
        subst h1; subst h2
        simp [lookup_cons_key]
      · have hnd' : k0 ∉ List.map Prod.fst rest ∧ (List.map Prod.fst rest).Nodup := by
          rw [← List.nodup_cons]
          simpa [mapKeys] using hnd
        have hkmem : k ∈ mapKeys rest := by
          simp only [mapKeys, List.mem_map]
          exact ⟨(k, fd), hmem', rfl⟩
        have hne : k ≠ k0 := by
          intro h
          subst h
          exact hnd'.1 (by simpa [mapKeys] using hkmem)
        rw [lookup_cons_key, if_neg hne]
        exact ih (by simpa [mapKeys] using hnd'.2) k fd hmem'

/-! ### Wide walker structural lemmas -/

theorem buildRowMap_nil (m : RowMap) : buildRowMap m [] = m := rfl

theorem buildRowMap_append (m : RowMap) (xs ys : List Contrib) :
    buildRowMap m (xs ++ ys) = buildRowMap (buildRowMap m xs) ys := by
  simp [buildRowMap, List.foldl_append]

theorem wideSlotStep_fst (cfg : Config) (row : CsvRow)
    (pn pl mf v : String) (i : Nat) (acc : RowMap × AuditState) :
    (wideSlotStep cfg row pn pl mf v i acc).1 =
      buildRowMap acc.1 (slotContribs cfg row pn pl mf v i) := by
  simp only [wideSlotStep, slotContribs]
  by_cases h1 : pyStrip (getCol row (codeColName i)) = "" ∨
      pyUpper (pyStrip (getCol row (typeColName i))) = ""
  · simp [h1, buildRowMap]
  · simp only [if_neg h1]
    cases hm : cfg.codeTypeMap.lookup (pyUpper (pyStrip (getCol row (typeColName i)))) with
    | none => simp [buildRowMap]
    | some t =>
        by_cases ht : t ∈ cfg.allowed <;> simp [ht, buildRowMap]

theorem wideSlotStep_fp (cfg : Config) (row : CsvRow)
    (pn pl mf v : String) (i : Nat) (acc : RowMap × AuditState) :
    ((wideSlotStep cfg row pn pl mf v i acc).2).fieldPresence =
      acc.2.fieldPresence := by
  simp only [wideSlotStep]
  by_cases h1 : pyStrip (getCol row (codeColName i)) = "" ∨
      pyUpper (pyStrip (getCol row (typeColName i))) = ""
  · simp [h1]
  · simp only [if_neg h1]
    cases hm : cfg.codeTypeMap.lookup (pyUpper (pyStrip (getCol row (typeColName i)))) with
    | none => simp
    | some t => by_cases ht : t ∈ cfg.allowed <;> simp [ht]

theorem slotsFold_fst (cfg : Config) (row : CsvRow) (pn pl mf v : String) :
    ∀ (bs : List Nat) (m : RowMap) (s : AuditState),
      ((bs.foldl (fun a i => wideSlotStep cfg row pn pl mf v i a) (m, s)).1 =
        buildRowMap m (bs.flatMap (slotContribs cfg row pn pl mf v))) := by
  intro bs
  induction bs with
  | nil => intro m s; simp [buildRowMap]
  | cons i bs ih =>
      intro m s
      have heta : wideSlotStep cfg row pn pl mf v i (m, s) =
          ((wideSlotStep cfg row pn pl mf v i (m, s)).1,
           (wideSlotStep cfg row pn pl mf v i (m, s)).2) := rfl
      simp only [List.foldl, List.flatMap_cons]
      rw [heta, ih, wideSlotStep_fst, buildRowMap_append]

theorem slotsFold_fp (cfg : Config) (row : CsvRow) (pn pl mf v : String) :
    ∀ (bs : List Nat) (a : RowMap × AuditState),
      ((bs.foldl (fun a i => wideSlotStep cfg row pn pl mf v i a) a).2).fieldPresence =
        a.2.fieldPresence := by
  intro bs
  induction bs with
  | nil => intro a; rfl
  | cons i bs ih =>
      intro a
      simp only [List.foldl]
      rw [ih, wideSlotStep_fp]

theorem wideColStep_fst (cfg : Config) (row : CsvRow) (col : String)
    (acc : RowMap × AuditState) :
    (wideColStep cfg row col acc).1 = buildRowMap acc.1 (colContribs cfg row col) := by
  simp only [wideColStep, colContribs]
  by_cases h1 : (List.map pyStrip (pySplitPipe col)).length < 3
  · simp only [if_pos h1]
    rfl
  · simp only [if_neg h1]
    cases hm : STANDARD_CHARGE_KEYS.lookup
        (if (List.map pyStrip (pySplitPipe col)).length = 3
         then (List.map pyStrip (pySplitPipe col)).headD ""
         else (List.map pyStrip (pySplitPipe col)).getLastD "") with
    | none => simp only [hm]; rfl
    | some mf =>
        simp only [hm]
        by_cases hp : ((parse_column_for_payer col).2.1.getD "") = ""
        · simp only [if_pos hp]
          rfl
        · simp only [if_neg hp]
          by_cases hv : getCol row col = ""
          · simp only [if_pos hv]
            rfl
          · simp only [if_neg hv]
            have heta : acc = (acc.1, acc.2) := rfl
            rw [heta]
            exact slotsFold_fst cfg row _ _ mf _ [1, 2, 3, 4] acc.1 acc.2

theorem wideColStep_fp (cfg : Config) (row : CsvRow) (col : String)
    (acc : RowMap × AuditState) :
    ((wideColStep cfg row col acc).2).fieldPresence = acc.2.fieldPresence := by
  simp only [wideColStep]
  by_cases h1 : (List.map pyStrip (pySplitPipe col)).length < 3
  · simp only [if_pos h1]
  · simp only [if_neg h1]
    cases hm : STANDARD_CHARGE_KEYS.lookup
        (if (List.map pyStrip (pySplitPipe col)).length = 3
         then (List.map pyStrip (pySplitPipe col)).headD ""
         else (List.map pyStrip (pySplitPipe col)).getLastD "") with
    | none => simp only [hm]
    | some mf =>
        simp only [hm]
        by_cases hp : ((parse_column_for_payer col).2.1.getD "") = ""
        · simp only [if_pos hp]
        · simp only [if_neg hp]
          by_cases hv : getCol row col = ""
          · simp only [if_pos hv]
          · simp only [if_neg hv]
            exact slotsFold_fp cfg row _ _ mf _ [1, 2, 3, 4] acc

theorem colsFold_fst (cfg : Config) (row : CsvRow) :
    ∀ (cols : List String) (m : RowMap) (s : AuditState),
      ((cols.foldl (fun a col => wideColStep cfg row col a) (m, s)).1 =
        buildRowMap m (cols.flatMap (colContribs cfg row))) := by
  intro cols
  induction cols with
  | nil => intro m s; simp [buildRowMap]
  | cons col cols ih =>
      intro m s
      have heta : wideColStep cfg row col (m, s) =
          ((wideColStep cfg row col (m, s)).1, (wideColStep cfg row col (m, s)).2) := rfl
      simp only [List.foldl, List.flatMap_cons]
      rw [heta, ih, wideColStep_fst, buildRowMap_append]

theorem colsFold_fp (cfg : Config) (row : CsvRow) :
    ∀ (cols : List String) (a : RowMap × AuditState),
      ((cols.foldl (fun a col => wideColStep cfg row col a) a).2).fieldPresence =
        a.2.fieldPresence := by
  intro cols
  induction cols with
  | nil => intro a; rfl
  | cons col cols ih =>
      intro a
      simp only [List.foldl]
      rw [ih, wideColStep_fp]

theorem wideEmit_fst (md : Metadata) (row : CsvRow) (gn mraw : String)
    (e : WideKey × List (String × String)) (st : AuditState) :
    (wideEmit md row gn mraw e st).1 =
      [wideRecord md row e.1 (popField e.2 "additional notes").2
        (joinNonEmpty [gn, (popField e.2 "additional notes").1]) mraw] := rfl

theorem wideEmit_fp (md : Metadata) (row : CsvRow) (gn mraw : String)
    (e : WideKey × List (String × String)) (st : AuditState) (k : String) :
    countOf ((wideEmit md row gn mraw e st).2).fieldPresence k =
      countOf st.fieldPresence k +
        fpDelta WIDE_RECORD_KEYS
          [wideRecord md row e.1 (popField e.2 "additional notes").2
            (joinNonEmpty [gn, (popField e.2 "additional notes").1]) mraw] k := by
  simp [wideEmit, countOf_logPresence]

theorem wideRowStep_fst (cfg : Config) (md : Metadata) (payerCols : List String)
    (row : CsvRow) (st : AuditState) :
    (wideRowStep cfg md payerCols row st).1 = wideRowRecs cfg md payerCols row := by
  simp only [wideRowStep, wideRowRecs]
  rw [runList_fst _
      (fun e => [wideRecord md row e.1 (popField e.2 "additional notes").2
        (joinNonEmpty [pyStrip (getCol row "additional_generic_notes"),
          (popField e.2 "additional notes").1]) (pyStrip (getCol row "modifiers"))])
      (fun e st => rfl)]
  rw [colsFold_fst, flatMap_singleton_eq_map]
  rfl

theorem wideRowStep_fp (cfg : Config) (md : Metadata) (payerCols : List String)
    (row : CsvRow) (st : AuditState) (k : String) :
    countOf ((wideRowStep cfg md payerCols row st).2).fieldPresence k =
      countOf st.fieldPresence k +
        fpDelta WIDE_RECORD_KEYS (wideRowRecs cfg md payerCols row) k := by
  simp only [wideRowStep]
  rw [runList_proj _ (fun s => countOf s.fieldPresence k)
      (fun e => fpDelta WIDE_RECORD_KEYS
        [wideRecord md row e.1 (popField e.2 "additional notes").2
          (joinNonEmpty [pyStrip (getCol row "additional_generic_notes"),
            (popField e.2 "additional notes").1]) (pyStrip (getCol row "modifiers"))] k)
      (fun e st => wideEmit_fp md row _ _ e st k)]
  rw [fpDelta_flatMap WIDE_RECORD_KEYS _ k]
  rw [colsFold_fp, colsFold_fst, flatMap_singleton_eq_map]
  rfl

theorem wideRun_fst (cfg : Config) (md : Metadata) (inp : WideInput) (st : AuditState) :
    (wideRun cfg md inp st).1 = wideRecs cfg md inp := by
  simp only [wideRun, wideRecs]
  exact runList_fst _ _
    (fun row st => wideRowStep_fst cfg md _ row st) inp.rows st

theorem wideRun_fp (cfg : Config) (md : Metadata) (inp : WideInput)
    (st : AuditState) (k : String) :
    countOf ((wideRun cfg md inp st).2).fieldPresence k =
      countOf st.fieldPresence k + fpDelta WIDE_RECORD_KEYS (wideRecs cfg md inp) k := by
  simp only [wideRun, wideRecs]
  rw [runList_proj _ (fun s => countOf s.fieldPresence k)
      (fun row => fpDelta WIDE_RECORD_KEYS
        (wideRowRecs cfg md (inp.columns.filter isPayerCol) row) k)
      (fun row st => wideRowStep_fp cfg md _ row st k)]
  rw [fpDelta_flatMap]

/-- Every contribution's group key carries an allowed code type. -/
theorem slotContribs_allowed (cfg : Config) (row : CsvRow)
    (pn pl mf v : String) (i : Nat) (c : Contrib)
    (hc : c ∈ slotContribs cfg row pn pl mf v i) :
    c.1.2.1 ∈ cfg.allowed := by
  simp only [slotContribs] at hc
  by_cases h1 : pyStrip (getCol row (codeColName i)) = "" ∨
      pyUpper (pyStrip (getCol row (typeColName i))) = ""
  · simp [h1] at hc
  · simp only [if_neg h1] at hc
    cases hm : cfg.codeTypeMap.lookup (pyUpper (pyStrip (getCol row (typeColName i)))) with
    | none => simp [hm] at hc
    | some t =>
        rw [hm] at hc
        by_cases ht : t ∈ cfg.allowed
        · simp only [ht, if_true, List.mem_singleton] at hc
          subst hc
          exact ht
        · simp [ht] at hc

theorem rowContribs_allowed (cfg : Config) (row : CsvRow) (payerCols : List String)
    (c : Contrib) (hc : c ∈ rowContribs cfg row payerCols) :
    c.1.2.1 ∈ cfg.allowed := by
  simp only [rowContribs, List.mem_flatMap] at hc
  obtain ⟨col, _, hc⟩ := hc
  simp only [colContribs] at hc
  by_cases h1 : (List.map pyStrip (pySplitPipe col)).length < 3
  · simp only [if_pos h1] at hc
    simp at hc
  · simp only [if_neg h1] at hc
    cases hm : STANDARD_CHARGE_KEYS.lookup
        (if (List.map pyStrip (pySplitPipe col)).length = 3
         then (List.map pyStrip (pySplitPipe col)).headD ""
         else (List.map pyStrip (pySplitPipe col)).getLastD "") with
    | none => simp only [hm] at hc; simp at hc
    | some mf =>
        simp only [hm] at hc
        by_cases hp : ((parse_column_for_payer col).2.1.getD "") = ""
        · simp only [if_pos hp] at hc
          simp at hc
        · simp only [if_neg hp] at hc
          by_cases hv : getCol row col = ""
          · simp only [if_pos hv] at hc
            simp at hc
          · simp only [if_neg hv, List.mem_flatMap] at hc
            obtain ⟨i, _, hc⟩ := hc
            exact slotContribs_allowed cfg row _ _ mf _ i c hc

/-- Every record the wide walker emits comes from an accumulated group
entry of its row. -/
theorem wideRowRecs_mem (cfg : Config) (md : Metadata) (payerCols : List String)
    (row : CsvRow) (r : CanonicalRecord)
    (hr : r ∈ wideRowRecs cfg md payerCols row) :
    ∃ e ∈ buildRowMap [] (rowContribs cfg row payerCols),
      r = wideRecord md row e.1 (popField e.2 "additional notes").2
        (joinNonEmpty [pyStrip (getCol row "additional_generic_notes"),
          (popField e.2 "additional notes").1]) (pyStrip (getCol row "modifiers")) := by
  simp only [wideRowRecs, List.mem_map] at hr
  obtain ⟨e, he, hr⟩ := hr
  exact ⟨e, he, hr.symm⟩

theorem wideRecs_allowed (cfg : Config) (md : Metadata) (inp : WideInput)
    (r : CanonicalRecord) (hr : r ∈ wideRecs cfg md inp) :
    r.codeType ∈ cfg.allowed := by
  simp only [wideRecs, List.mem_flatMap] at hr
  obtain ⟨row, _, hr⟩ := hr
  obtain ⟨e, he, hre⟩ := wideRowRecs_mem cfg md _ row r hr
  have hkey : e.1 ∈ mapKeys (buildRowMap [] (rowContribs cfg row
      (inp.columns.filter isPayerCol))) := by
    simp only [mapKeys, List.mem_map]
    exact ⟨e, he, rfl⟩
  rw [mapKeys_buildRowMap] at hkey
  rw [mem_dedupInto] at hkey
  rcases hkey with hkey | hkey
  · simp [mapKeys] at hkey
  · simp only [List.mem_map] at hkey
    obtain ⟨c, hc, hck⟩ := hkey
    have := rowContribs_allowed cfg row _ c hc
    rw [hre]
    simpa [wideRecord, hck] using this

/-- Every record the wide walker emits has an empty payer id. -/
theorem wideRecs_payerId (cfg : Config) (md : Metadata) (inp : WideInput)
    (r : CanonicalRecord) (hr : r ∈ wideRecs cfg md inp) :
    r.insurancePayerId = "" := by
  simp only [wideRecs, List.mem_flatMap] at hr
  obtain ⟨row, _, hr⟩ := hr
  obtain ⟨e, _, hre⟩ := wideRowRecs_mem cfg md _ row r hr
  rw [hre]
  rfl

/-! ### Group-key / last-write-wins characterization of a wide row -/

/-- The five pivoted price fields read back from the group's field dict
(`additional notes` is popped and combined instead). -/
def pivotValueFields : List String :=
  ["negotiated price", "negotiated percentage", "negotiated algorithm",
   "negotiated methodology", "estimated amount"]

theorem recKey_wideRecord (md : Metadata) (row : CsvRow) (k : WideKey)
    (fd : List (String × String)) (n m' : String) :
    recKey (wideRecord md row k fd n m') = k := rfl

theorem wideRecord_pivot (md : Metadata) (row : CsvRow) (k : WideKey)
    (fd : List (String × String)) (n m' : String) :
    ∀ fld ∈ pivotValueFields,
      (wideRecord md row k fd n m').getField fld = (fd.lookup fld).getD "" := by
  intro fld hfld
  fin_cases hfld <;> rfl

theorem wideRecord_notes (md : Metadata) (row : CsvRow) (k : WideKey)
    (fd : List (String × String)) (n m' : String) :
    (wideRecord md row k fd n m').getField "additional notes" = n := rfl

/-- The emitted records of a row, keyed: one record per distinct
contribution key, in first-contribution order. -/
theorem wideRowRecs_keys (cfg : Config) (md : Metadata) (payerCols : List String)
    (row : CsvRow) :
    (wideRowRecs cfg md payerCols row).map recKey =
      dedupInto [] ((rowContribs cfg row payerCols).map Prod.fst) := by
  simp only [wideRowRecs, List.map_map]
  have : (recKey ∘ fun e : WideKey × List (String × String) =>
      wideRecord md row e.1 (popField e.2 "additional notes").2
        (joinNonEmpty [pyStrip (getCol row "additional_generic_notes"),
          (popField e.2 "additional notes").1]) (pyStrip (getCol row "modifiers"))) =
      Prod.fst := by
    funext e
    simp [Function.comp, recKey_wideRecord]
  rw [this]
  have := mapKeys_buildRowMap (rowContribs cfg row payerCols) []
  simpa [mapKeys] using this

/-- Each emitted record's pivot field holds the row's last contribution
for its group key and that field. -/
theorem wideRowRecs_lastWrite (cfg : Config) (md : Metadata) (payerCols : List String)
    (row : CsvRow) (r : CanonicalRecord)
    (hr : r ∈ wideRowRecs cfg md payerCols row) :
    (∀ fld ∈ pivotValueFields,
        r.getField fld =
          (lastMatch (rowContribs cfg row payerCols) (recKey r) fld).getD "") ∧
      r.getField "additional notes" =
        joinNonEmpty [pyStrip (getCol row "additional_generic_notes"),
          (lastMatch (rowContribs cfg row payerCols) (recKey r) "additional notes").getD ""] := by
  obtain ⟨e, he, hre⟩ := wideRowRecs_mem cfg md payerCols row r hr
  have hnodup : (mapKeys (buildRowMap [] (rowContribs cfg row payerCols))).Nodup := by
    rw [mapKeys_buildRowMap]
    exact dedupInto_nodup _ [] List.nodup_nil
  have hlook : (buildRowMap [] (rowContribs cfg row payerCols)).lookup e.1 = some e.2 :=
    lookup_of_mem_nodupKeys _ hnodup e.1 e.2 (by simpa using he)
  have hkf : ∀ f : String,
      (e.2.lookup f) = (lastMatch (rowContribs cfg row payerCols) e.1 f) := by
    intro f
    have h1 := lookupKF_buildRowMap e.1 f (rowContribs cfg row payerCols) []
    rw [show lookupKF (buildRowMap [] (rowContribs cfg row payerCols)) e.1 f
        = e.2.lookup f by simp [lookupKF, hlook]] at h1
    rw [h1]
    cases lastMatch (rowContribs cfg row payerCols) e.1 f <;> simp [lookupKF]
  have hkey : recKey r = e.1 := by rw [hre]; rfl
  constructor
  · intro fld hfld
    rw [hre, wideRecord_pivot md row e.1 _ _ _ fld hfld, recKey_wideRecord]
    have hne : fld ≠ "additional notes" := by
      fin_cases hfld <;> decide
    rw [lookup_popField_snd _ _ _ hne, hkf fld]
  · rw [hre, wideRecord_notes, recKey_wideRecord]
    rw [popField_fst, hkf "additional notes"]

/-! ### Serialization lemmas for the tall writer -/

theorem flatMapDQ_id :
    ∀ cs : List Char, Char.ofNat 34 ∉ cs →
      (cs.flatMap fun c =>
        if c = Char.ofNat 34 then [Char.ofNat 39, Char.ofNat 39] else [c]) = cs := by
  intro cs
  induction cs with
  | nil => intro _; rfl
  | cons c cs ih =>
      intro h
      have hc : ¬ c = Char.ofNat 34 := fun hh => h (hh ▸ List.mem_cons_self c cs)
      have hcs : Char.ofNat 34 ∉ cs := fun hh => h (List.mem_cons_of_mem c hh)
      simp [List.flatMap_cons, hc, ih hcs]

theorem flatMapDQ_count :
    ∀ cs : List Char,
      (cs.flatMap fun c =>
        if c = Char.ofNat 34 then [Char.ofNat 39, Char.ofNat 39] else [c]).count
          (Char.ofNat 34) = 0 := by
  intro cs
  induction cs with
  | nil => rfl
  | cons c cs ih =>
      by_cases hc : c = Char.ofNat 34
      · simp [List.flatMap_cons, hc, List.count_append, ih, List.count_cons]
      · simp [List.flatMap_cons, hc, List.count_append, ih, List.count_cons]

theorem pyReplaceDQ_id (v : String) (h : Char.ofNat 34 ∉ v.data) :
    pyReplaceDQ v = v := by
  simp only [pyReplaceDQ]
  rw [flatMapDQ_id v.data h]

/-! ### Field-presence-equals-record-count helpers (one per walker) -/

theorem json_fp_eq_countP (cfg : Config) (md : Metadata) (doc : JsonDoc)
    (f : String) (hf : f ∈ HEADERS_JSON) :
    countOf ((jsonRun cfg md doc emptyState).2).fieldPresence f =
      (jsonRecs cfg md doc).countP (fun r => r.getField f ≠ "") := by
  rw [jsonRun_fp]
  have h1 : HEADERS_JSON.count f = 1 := List.count_eq_one_of_mem (by decide) hf
  simp [fpDelta, h1, emptyState, countOf]

theorem tall_fp_eq_countP (cfg : Config) (md : Metadata) (rows : List CsvRow)
    (f : String) (hf : f ∈ HEADERS_CSV) :
    countOf ((tallRun cfg md rows emptyState).2).fieldPresence f =
      (tallRecs cfg md rows).countP (fun r => r.getField f ≠ "") := by
  rw [tallRun_fp]
  have h1 : HEADERS_CSV.count f = 1 := List.count_eq_one_of_mem (by decide) hf
  simp [fpDelta, h1, emptyState, countOf]

theorem wide_fp_eq_countP (cfg : Config) (md : Metadata) (inp : WideInput)
    (f : String) (hf : f ∈ HEADERS_CSV) :
    countOf ((wideRun cfg md inp emptyState).2).fieldPresence f =
      (wideRecs cfg md inp).countP (fun r => r.getField f ≠ "") := by
  rw [wideRun_fp]
  by_cases hid : f = "insurance payer id"
  · subst hid
    have h0 : WIDE_RECORD_KEYS.count "insurance payer id" = 0 := by decide
    have hcp : List.countP (fun r => !decide (r.getField "insurance payer id" = ""))
        (wideRecs cfg md inp) = 0 := by
      rw [List.countP_eq_zero]
      intro r hr
      have hpid := wideRecs_payerId cfg md inp r hr
      have hgf : r.getField "insurance payer id" = r.insurancePayerId := rfl
      simp [hgf, hpid]
    simp [fpDelta, h0, hcp, emptyState, countOf]
  · have hmem : f ∈ WIDE_RECORD_KEYS := by
      fin_cases hf <;> first | decide | (exact absurd rfl hid)
    have h1 : WIDE_RECORD_KEYS.count f = 1 := List.count_eq_one_of_mem (by decide) hmem
    simp [fpDelta, h1, emptyState, countOf]

/-! ## Concrete fixtures used by counterexamples and witnesses -/

/-- A minimal config: one allowed type, identity normalization for it. -/
def cfg0 : Config := ⟨["CPT"], [("CPT", "CPT")]⟩

def md0 : Metadata := ⟨"H", "Z"⟩

/-- One tall body row with a valid slot-1 code. -/
def tallRowsEx : List CsvRow :=
  [[("code|1", "12345"), ("code|1|type", "cpt"), ("payer_name", "Aetna [AET]")]]

def tallInputEx : TallInput := ⟨[], tallRowsEx⟩

/-- A tall body row whose description contains a double quote. -/
def tallRowsQuote : List CsvRow :=
  [[("code|1", "1"), ("code|1|type", "cpt"), ("description", "a\"b")]]

/-- A JSON document with only a standalone modifier entry. -/
def docModifierOnly : JsonDoc :=
  { version := none, last_updated_on := none, hospital_location := [],
    hospital_address := [], standard_charge_information := .asList [],
    modifier_information := [⟨some "25", some "Bilateral",
      [⟨some "Aetna", some "PlanX", some "note"⟩]⟩],
    topLevelKeys := [] }

/-- A JSON document with one allowed code entry but no standard_charges:
the code type is counted present though no record is emitted. -/
def docCodeNoCharges : JsonDoc :=
  { version := none, last_updated_on := none, hospital_location := [],
    hospital_address := [],
    standard_charge_information := .asList
      [⟨some "d", [⟨some "1", some "CPT"⟩], [], none⟩],
    modifier_information := [], topLevelKeys := [] }

/-- The wide fixture of the spec's test: field key in the second of four
segments (`standard_charge|negotiated_dollar|PayerA|PlanA`). -/
def wideInputSpec : WideInput :=
  { metaPairs := [],
    columns := ["description", "code|1", "code|1|type",
      "standard_charge|negotiated_dollar|PayerA|PlanA",
      "standard_charge|methodology|PayerA|PlanA"],
    rows := [[("description", "svc"), ("code|1", "12345"), ("code|1|type", "cpt"),
      ("standard_charge|negotiated_dollar|PayerA|PlanA", "100"),
      ("standard_charge|methodology|PayerA|PlanA", "case rate")]] }

/-- The same fixture with the field key in the last segment, which the
column-selection rule actually accepts. -/
def wideInputLastSeg : WideInput :=
  { metaPairs := [],
    columns := ["description", "code|1", "code|1|type",
      "standard_charge|PayerA|PlanA|negotiated_dollar",
      "standard_charge|PayerA|PlanA|methodology"],
    rows := [[("description", "svc"), ("code|1", "12345"), ("code|1|type", "cpt"),
      ("standard_charge|PayerA|PlanA|negotiated_dollar", "100"),
      ("standard_charge|PayerA|PlanA|methodology", "case rate")]] }

/-! ## Claim theorems -/

/-- C1 (counterexample): the claim that every emitted record's code type
is in the configured allowed set fails on the JSON walker: a document
with one standalone modifier entry and allowed set `{"CPT"}` emits one
record whose code type `"MODIFIER"` is not in the allowed set — the
modifier path performs no allow-list check. -/
theorem C1_counterexample :
    (jsonRun cfg0 md0 docModifierOnly emptyState).1.length = 1 ∧
    ((jsonRun cfg0 md0 docModifierOnly emptyState).1.headD defRec).codeType ∉
      cfg0.allowed := by decide

/-- C1 (amended): every record emitted by the tall and wide walkers, and
every record emitted by the JSON walker's code-information path, carries
a code type in the configured allowed set; the JSON walker's standalone
modifier records instead carry the literal `"MODIFIER"` without an
allow-list check. -/
theorem C1_allowlist_amended :
    ∀ (cfg : Config) (md : Metadata),
      (∀ (rows : List CsvRow) (st : AuditState) (r : CanonicalRecord),
          r ∈ (tallRun cfg md rows st).1 → r.codeType ∈ cfg.allowed) ∧
      (∀ (inp : WideInput) (st : AuditState) (r : CanonicalRecord),
          r ∈ (wideRun cfg md inp st).1 → r.codeType ∈ cfg.allowed) ∧
      (∀ (doc : JsonDoc) (st : AuditState) (r : CanonicalRecord),
          r ∈ (jsonRun cfg md doc st).1 →
            r.codeType ∈ cfg.allowed ∨ r.codeType = "MODIFIER") := by
  intro cfg md
  refine ⟨?_, ?_, ?_⟩
  · intro rows st r hr
    rw [tallRun_fst] at hr
    exact tallRecs_allowed cfg md rows r hr
  · intro inp st r hr
    rw [wideRun_fst] at hr
    exact wideRecs_allowed cfg md inp r hr
  · intro doc st r hr
    rw [jsonRun_fst] at hr
    exact jsonRecs_allowed_or_modifier cfg md doc r hr

/-- C1 (witness): the amended theorem applied to a concrete tall run. -/
theorem C1_allowlist_witness :
    ((tallRun cfg0 md0 tallRowsEx emptyState).1.headD defRec).codeType ∈
      cfg0.allowed :=
  (C1_allowlist_amended cfg0 md0).1 tallRowsEx emptyState
    ((tallRun cfg0 md0 tallRowsEx emptyState).1.headD defRec) (by decide)

/-- C2 (counterexample): the spec's wide fixture — columns
`standard_charge|negotiated_dollar|PayerA|PlanA` and
`standard_charge|methodology|PayerA|PlanA` with one allowed code slot —
produces zero records, not one: four pipe-separated segments whose last
segment (`PlanA`) is no known field key fail the selection rule. -/
theorem C2_counterexample :
    (wideRun cfg0 md0 wideInputSpec emptyState).1 = [] := by decide

/-- C2 (amended): with the canonical-field key in the last segment
(`standard_charge|PayerA|PlanA|negotiated_dollar` = "100",
`standard_charge|PayerA|PlanA|methodology` = "case rate") and one
allowed code slot, the resolver emits exactly one record with negotiated
price "100", methodology "case rate", payer "PayerA" and plan "PlanA". -/
theorem C2_wide_fixture_amended :
    (wideRun cfg0 md0 wideInputLastSeg emptyState).1 =
      [⟨"H", "Z", "12345", "CPT", "svc", "", "", "PayerA", "", "PlanA",
        "100", "", "", "case rate", "", "", "", "", "", "", "", ""⟩] := by decide

/-- C3 (counterexample): the audit counter for `"CPT"` ends at 1 while
zero records of that type are emitted — a passing code entry whose item
has no `standard_charges` is counted but emits nothing, so the presence
counter does not equal the emitted-record count for the JSON walker. -/
theorem C3_counterexample :
    countOf ((jsonWalk cfg0 md0 docCodeNoCharges emptyState).2.2.code_type_presence)
        "CPT" = 1 ∧
    typeCount ((jsonWalk cfg0 md0 docCodeNoCharges emptyState).1) "CPT" = 0 ∧
    countOf ((jsonWalk cfg0 md0 docCodeNoCharges emptyState).2.2.code_type_presence)
        "CPT" ≠
      typeCount ((jsonWalk cfg0 md0 docCodeNoCharges emptyState).1) "CPT" := by decide

/-- C3 (amended): for the tall walker the equality does hold — the final
audit-report presence counter of every code type `t` equals exactly the
number of emitted records whose code type is `t` (the JSON and wide
walkers instead count allow-list passes, which need not match). -/
theorem C3_presence_counter_amended :
    ∀ (cfg : Config) (md : Metadata) (inp : TallInput) (t : String),
      countOf ((tallWalk cfg md inp emptyState).2.2.code_type_presence) t =
        typeCount ((tallWalk cfg md inp emptyState).1) t := by
  intro cfg md inp t
  show countOf (touchAll ((tallRun cfg md inp.body emptyState).2).codeTypePresence
      cfg.allowed) t = typeCount ((tallRun cfg md inp.body emptyState).1) t
  rw [countOf_touchAll, tallRun_ct, tallRun_fst]
  simp [emptyState, countOf]

/-- C4 (counterexample): running the tall walker twice in succession in
the same process (module-level accumulators carried over) yields a
second audit report different from the first — the counters are
doubled. -/
theorem C4_counterexample :
    (tallWalk cfg0 md0 tallInputEx ((tallWalk cfg0 md0 tallInputEx emptyState).2.1)).2.2 ≠
      (tallWalk cfg0 md0 tallInputEx emptyState).2.2 := by decide

/-- C4 (amended): the emitted canonical records are a pure function of
the input — independent of any carried accumulator state — so the
canonical output of a re-run is byte-identical; but the audit
accumulators are module-level and additive, so an in-process second run
ends with every field-presence count doubled (the reports agree only
when the accumulators are reset between runs, i.e. in fresh
processes). -/
theorem C4_determinism_amended :
    (∀ (cfg : Config) (md : Metadata) (rows : List CsvRow) (st : AuditState),
        (tallRun cfg md rows st).1 = tallRecs cfg md rows) ∧
    (∀ (cfg : Config) (md : Metadata) (doc : JsonDoc) (st : AuditState),
        (jsonRun cfg md doc st).1 = jsonRecs cfg md doc) ∧
    (∀ (cfg : Config) (md : Metadata) (inp : WideInput) (st : AuditState),
        (wideRun cfg md inp st).1 = wideRecs cfg md inp) ∧
    (∀ (cfg : Config) (md : Metadata) (rows : List CsvRow) (f : String),
        countOf ((tallRun cfg md rows
            ((tallRun cfg md rows emptyState).2)).2).fieldPresence f =
          2 * countOf ((tallRun cfg md rows emptyState).2).fieldPresence f) ∧
    (∀ (cfg : Config) (md : Metadata) (doc : JsonDoc) (f : String),
        countOf ((jsonRun cfg md doc
            ((jsonRun cfg md doc emptyState).2)).2).fieldPresence f =
          2 * countOf ((jsonRun cfg md doc emptyState).2).fieldPresence f) ∧
    (∀ (cfg : Config) (md : Metadata) (inp : WideInput) (f : String),
        countOf ((wideRun cfg md inp
            ((wideRun cfg md inp emptyState).2)).2).fieldPresence f =
          2 * countOf ((wideRun cfg md inp emptyState).2).fieldPresence f) := by
  refine ⟨tallRun_fst, jsonRun_fst, wideRun_fst, ?_, ?_, ?_⟩
  · intro cfg md rows f
    have h1 := tallRun_fp cfg md rows emptyState f
    have h2 := tallRun_fp cfg md rows ((tallRun cfg md rows emptyState).2) f
    rw [h2, h1]
    simp only [emptyState, countOf, List.lookup, Option.getD_none]
    omega
  · intro cfg md doc f
    have h1 := jsonRun_fp cfg md doc emptyState f
    have h2 := jsonRun_fp cfg md doc ((jsonRun cfg md doc emptyState).2) f
    rw [h2, h1]
    simp only [emptyState, countOf, List.lookup, Option.getD_none]
    omega
  · intro cfg md inp f
    have h1 := wideRun_fp cfg md inp emptyState f
    have h2 := wideRun_fp cfg md inp ((wideRun cfg md inp emptyState).2) f
    rw [h2, h1]
    simp only [emptyState, countOf, List.lookup, Option.getD_none]
    omega

/-- C5 (counterexample): a tall record whose description contains a
double quote is not written with that character: the writer's cell for
the value `a"b` is `"a''b"` — the double quote inside the value is
replaced by two apostrophes, so the value is not an unmodified opaque
string in the output. -/
theorem C5_counterexample :
    ((tallRun cfg0 md0 tallRowsQuote emptyState).1.headD defRec).description =
      "a\"b" ∧
    tallCell (((tallRun cfg0 md0 tallRowsQuote emptyState).1.headD defRec).description) ≠
      "\"" ++ "a\"b" ++ "\"" ∧
    tallCell (((tallRun cfg0 md0 tallRowsQuote emptyState).1.headD defRec).description) =
      "\"a''b\"" := by decide

/-- C5 (amended): field values are carried as opaque strings into the
records, and the tall writer emits each value verbatim inside its quoted
cell **except** that every double-quote character in a value is replaced
by two apostrophes: values without a double quote are written unchanged,
and no double quote from a value ever survives into the replaced text. -/
theorem C5_opaque_values_amended :
    ∀ v : String,
      (Char.ofNat 34 ∉ v.data → tallCell v = "\"" ++ v ++ "\"") ∧
      (pyReplaceDQ v).data.count (Char.ofNat 34) = 0 := by
  intro v
  constructor
  · intro h
    show "\"" ++ pyReplaceDQ v ++ "\"" = "\"" ++ v ++ "\""
    rw [pyReplaceDQ_id v h]
  · exact flatMapDQ_count v.data

/-- C5 (witness): the amended theorem applied to a quote-free value. -/
theorem C5_opaque_values_witness :
    tallCell "abc" = "\"" ++ "abc" ++ "\"" :=
  (C5_opaque_values_amended "abc").1 (by decide)

/-- C6: the modifier extractor splits its input on comma or pipe, trims
each piece, discards empty pieces, and keeps source order; the tally
loop adds one to a token's counter per occurrence in the returned list.
In particular `"A, B|C"` yields `["A", "B", "C"]` and `""` yields `[]`
(with no counter change, since the count of every token in `[]` is 0);
the fourth conjunct ties this to the tall row step's side effect on the
run's modifier counters. -/
theorem C6_modifier_extractor :
    extractModifiers "A, B|C" = ["A", "B", "C"] ∧
    extractModifiers "" = [] ∧
    (∀ (c : Counter) (xs : List String) (m : String),
        countOf (tallyList c xs) m = countOf c m + xs.count m) ∧
    (∀ (cfg : Config) (md : Metadata) (row : CsvRow) (st : AuditState) (m : String),
        countOf ((tallRowStep cfg md row st).2).modifierCounts m =
          countOf st.modifierCounts m +
            (extractModifiers (pyStrip (getCol row "modifiers"))).count m) :=
  ⟨by decide, by decide, countOf_tallyList,
   fun cfg md row st m => tallRowStep_mod cfg md row st m⟩

/-- C7: in the JSON walker each per-payer record's estimated amount is
the payer entry's `estimated_amount` whenever the payer supplies a
non-empty one, and otherwise falls back to the line item's
`drug_information` estimated amount (empty when that is also absent);
the first conjunct ties the record shape to the walker's payer step. -/
theorem C7_estimated_amount :
    ∀ (md : Metadata) (desc : String) (drug : DrugInfo) (code nct : String)
      (ch : ChargeEntry) (p : PayerEntry) (st : AuditState),
      (payerStep md desc drug code nct ch p st).1 =
          [jsonPayerRecord md desc drug code nct ch p] ∧
      (∀ v, p.estimated_amount = some v → v ≠ "" →
          (jsonPayerRecord md desc drug code nct ch p).estimatedAmount = v) ∧
      ((p.estimated_amount = none ∨ p.estimated_amount = some "") →
          (jsonPayerRecord md desc drug code nct ch p).estimatedAmount =
            drug.estimated_amount.getD "") := by
  intro md desc drug code nct ch p st
  refine ⟨rfl, ?_, ?_⟩
  · intro v hv hne
    simp [jsonPayerRecord, pyOrStr, hv, hne]
  · rintro (h | h) <;> simp [jsonPayerRecord, pyOrStr, h]

/-- C7 (witness): a payer entry supplying estimated amount "9" wins over
the drug-info value "5". -/
theorem C7_estimated_amount_witness :
    (jsonPayerRecord md0 "d" ⟨none, none, some "5"⟩ "1" "CPT"
        ⟨none, none, none, none, none, []⟩
        ⟨none, none, none, none, none, none, none, some "9", none⟩).estimatedAmount =
      "9" :=
  (C7_estimated_amount md0 "d" ⟨none, none, some "5"⟩ "1" "CPT"
      ⟨none, none, none, none, none, []⟩
      ⟨none, none, none, none, none, none, none, some "9", none⟩ emptyState).2.1 "9"
    rfl (by decide)

/-- C8: within one wide body row, all selected payer columns whose
parsed (code, normalized type, payer, plan) key agree contribute to
exactly one emitted record (record keys are distinct and are exactly the
contribution keys), and each pivoted field of that record holds the
value of the **last** column-scan contribution for that key and field —
silent overwrite, no error; the popped per-payer note is joined with the
row's generic note. -/
theorem C8_group_reassembly :
    ∀ (cfg : Config) (md : Metadata) (payerCols : List String) (row : CsvRow)
      (st : AuditState),
      ((wideRowStep cfg md payerCols row st).1.map recKey).Nodup ∧
      (∀ k : WideKey,
          k ∈ (wideRowStep cfg md payerCols row st).1.map recKey ↔
            k ∈ (rowContribs cfg row payerCols).map Prod.fst) ∧
      (∀ r ∈ (wideRowStep cfg md payerCols row st).1,
          (∀ fld ∈ pivotValueFields,
              r.getField fld =
                (lastMatch (rowContribs cfg row payerCols) (recKey r) fld).getD "") ∧
          r.getField "additional notes" =
            joinNonEmpty [pyStrip (getCol row "additional_generic_notes"),
              (lastMatch (rowContribs cfg row payerCols) (recKey r)
                "additional notes").getD ""]) := by
  intro cfg md payerCols row st
  refine ⟨?_, ?_, ?_⟩
  · rw [wideRowStep_fst, wideRowRecs_keys]
    exact dedupInto_nodup _ [] List.nodup_nil
  · intro k
    rw [wideRowStep_fst, wideRowRecs_keys, mem_dedupInto]
    simp
  · intro r hr
    rw [wideRowStep_fst] at hr
    exact wideRowRecs_lastWrite cfg md payerCols row r hr

/-- C8 (witness): the reassembly theorem applied to the concrete
last-segment wide fixture. -/
theorem C8_group_reassembly_witness :
    ((wideRowStep cfg0 md0 (wideInputLastSeg.columns.filter isPayerCol)
        (wideInputLastSeg.rows.headD []) emptyState).1.headD defRec).getField
        "negotiated price" =
      (lastMatch (rowContribs cfg0 (wideInputLastSeg.rows.headD [])
          (wideInputLastSeg.columns.filter isPayerCol))
        (recKey ((wideRowStep cfg0 md0 (wideInputLastSeg.columns.filter isPayerCol)
            (wideInputLastSeg.rows.headD []) emptyState).1.headD defRec))
        "negotiated price").getD "" :=
  ((C8_group_reassembly cfg0 md0 (wideInputLastSeg.columns.filter isPayerCol)
      (wideInputLastSeg.rows.headD []) emptyState).2.2
    ((wideRowStep cfg0 md0 (wideInputLastSeg.columns.filter isPayerCol)
        (wideInputLastSeg.rows.headD []) emptyState).1.headD defRec)
    (by decide)).1 "negotiated price" (by decide)

/-- C9: for every run of each of the three walkers from a fresh state,
the audit report's field-presence table has exactly the walker's
canonical header fields as keys, the entry of field `f` being the exact
number of emitted records whose `f` field is non-empty (zero for fields
never observed non-empty), and no key outside the header list. -/
theorem C9_field_summary :
    ∀ (cfg : Config) (md : Metadata) (f : String),
      (∀ doc : JsonDoc,
          ((jsonWalk cfg md doc emptyState).2.2.field_presence_summary).lookup f =
            if f ∈ HEADERS_JSON
            then some (((jsonWalk cfg md doc emptyState).1).countP
              fun r => r.getField f ≠ "")
            else none) ∧
      (∀ inp : TallInput,
          ((tallWalk cfg md inp emptyState).2.2.field_presence_summary).lookup f =
            if f ∈ HEADERS_CSV
            then some (((tallWalk cfg md inp emptyState).1).countP
              fun r => r.getField f ≠ "")
            else none) ∧
      (∀ inp : WideInput,
          ((wideWalk cfg md inp emptyState).2.2.field_presence_summary).lookup f =
            if f ∈ HEADERS_CSV
            then some (((wideWalk cfg md inp emptyState).1).countP
              fun r => r.getField f ≠ "")
            else none) := by
  intro cfg md f
  refine ⟨?_, ?_, ?_⟩
  · intro doc
    show (fullFieldSummary HEADERS_JSON
        ((jsonRun cfg md doc emptyState).2).fieldPresence).lookup f =
      if f ∈ HEADERS_JSON
      then some (((jsonRun cfg md doc emptyState).1).countP
        fun r => r.getField f ≠ "")
      else none
    rw [lookup_fullFieldSummary]
    by_cases hf : f ∈ HEADERS_JSON
    · rw [if_pos hf, if_pos hf, json_fp_eq_countP cfg md doc f hf, jsonRun_fst]
    · rw [if_neg hf, if_neg hf]
  · intro inp
    show (fullFieldSummary HEADERS_CSV
        ((tallRun cfg md inp.body emptyState).2).fieldPresence).lookup f =
      if f ∈ HEADERS_CSV
      then some (((tallRun cfg md inp.body emptyState).1).countP
        fun r => r.getField f ≠ "")
      else none
    rw [lookup_fullFieldSummary]
    by_cases hf : f ∈ HEADERS_CSV
    · rw [if_pos hf, if_pos hf, tall_fp_eq_countP cfg md inp.body f hf, tallRun_fst]
    · rw [if_neg hf, if_neg hf]
  · intro inp
    show (fullFieldSummary HEADERS_CSV
        ((wideRun cfg md inp emptyState).2).fieldPresence).lookup f =
      if f ∈ HEADERS_CSV
      then some (((wideRun cfg md inp emptyState).1).countP
        fun r => r.getField f ≠ "")
      else none
    rw [lookup_fullFieldSummary]
    by_cases hf : f ∈ HEADERS_CSV
    · rw [if_pos hf, if_pos hf, wide_fp_eq_countP cfg md inp f hf, wideRun_fst]
    · rw [if_neg hf, if_neg hf]

/-- C10: the wide resolver never populates `insurance payer id`: every
emitted record's payer id field is empty, and from a fresh state the
audit report's field-presence entry for `insurance payer id` is zero
even though the column is in the fixed output header. -/
theorem C10_wide_payer_id :
    ∀ (cfg : Config) (md : Metadata) (inp : WideInput),
      (∀ (st : AuditState) (r : CanonicalRecord),
          r ∈ (wideRun cfg md inp st).1 → r.insurancePayerId = "") ∧
      countOf ((wideRun cfg md inp emptyState).2).fieldPresence
        "insurance payer id" = 0 ∧
      ((wideWalk cfg md inp emptyState).2.2.field_presence_summary).lookup
        "insurance payer id" = some 0 := by
  intro cfg md inp
  have hz : countOf ((wideRun cfg md inp emptyState).2).fieldPresence
      "insurance payer id" = 0 := by
    rw [wide_fp_eq_countP cfg md inp _ (by decide), List.countP_eq_zero]
    intro r hr
    have hpid := wideRecs_payerId cfg md inp r hr
    have hgf : r.getField "insurance payer id" = r.insurancePayerId := rfl
    simp [hgf, hpid]
  refine ⟨?_, hz, ?_⟩
  · intro st r hr
    rw [wideRun_fst] at hr
    exact wideRecs_payerId cfg md inp r hr
  · show (fullFieldSummary HEADERS_CSV
        ((wideRun cfg md inp emptyState).2).fieldPresence).lookup
        "insurance payer id" = some 0
    rw [lookup_fullFieldSummary, if_pos (by decide), hz]

/-- C10 (witness): the theorem applied to a concrete wide run. -/
theorem C10_wide_payer_id_witness :
    ((wideRun cfg0 md0 wideInputLastSeg emptyState).1.headD defRec).insurancePayerId =
      "" :=
  (C10_wide_payer_id cfg0 md0 wideInputLastSeg).1 emptyState
    ((wideRun cfg0 md0 wideInputLastSeg emptyState).1.headD defRec) (by decide)

end Clearcare
